import Mathlib

/-!
Verification of the uAES library (src/uaes.c) against its specification.

The mode driver (`uaes_ecb_encryption`, `uaes_cbc_encryption`, `uaes_cbc_decryption`,
`uaes_ecb_decryption`, `uaes128enc` .. `uaes256dec`, `uaes_foward_cipher`,
`uaes_inverse_cipher`, `uaes_xor_iv`) is embedded from src/uaes.c.

The repository's ops.c (AES round primitives `sub_block`, `shift_rows`,
`mix_columns`, `add_round_key`, their inverses, `key_expansion`, the S-box
tables) and the `uAES_ALIGN` macro are not present under src/ (only their
declarations and call sites are), so those definitions are modelled from the
specification (spec.md sections 4.1 - 4.3, which follow FIPS-197).

Bytes are `Nat` values kept below 256; byte buffers are `List Nat`; a NULL
pointer is `none`; the C return code is an `Int` (0 success, -1 failure).
Entry points return the error code together with the contents of every
caller-owned buffer after the call, so that mutation and frame claims are
statable.
-/

/-- Modelled from the spec: GF(2^8) `xtime` (spec section 4.1) -- multiply by x,
left shift with conditional XOR of 0x1b on carry, reduced to a byte. -/
def xtime (b : Nat) : Nat :=
  ((2 * (b % 256)) % 256) ^^^ (if 128 ≤ b % 256 then 27 else 0)

/-- Modelled from the spec: shift-and-add GF(2^8) multiplication loop body
(8 iterations; `a` is the running multiplicand, `b` the remaining multiplier
bits, `acc` the accumulated product). -/
def gmulAux : Nat → Nat → Nat → Nat → Nat
  | 0, _, _, acc => acc
  | n + 1, a, b, acc =>
      gmulAux n (xtime a) (b / 2) (if b % 2 = 1 then acc ^^^ a else acc)

/-- Modelled from the spec: GF(2^8) multiplication with reduction polynomial
x^8 + x^4 + x^3 + x + 1 (spec section 4.1). -/
def gmul (a b : Nat) : Nat := gmulAux 8 (a % 256) (b % 256) 0

/-- Modelled from the spec: multiplicative inverse in GF(2^8) as a^254
(square-and-multiply chain); maps 0 to 0 as FIPS-197 requires. -/
def gInv (a : Nat) : Nat :=
  let b2 := gmul a a
  let b3 := gmul b2 a
  let b6 := gmul b3 b3
  let b7 := gmul b6 a
  let b14 := gmul b7 b7
  let b15 := gmul b14 a
  let b30 := gmul b15 b15
  let b31 := gmul b30 a
  let b62 := gmul b31 b31
  let b63 := gmul b62 a
  let b126 := gmul b63 b63
  let b127 := gmul b126 a
  gmul b127 b127

/-- Rotate a byte left by `n` bit positions. -/
def rotl8 (x n : Nat) : Nat :=
  (((x % 256) <<< n) % 256) ^^^ ((x % 256) >>> (8 - n))

/-- Modelled from the spec: the FIPS-197 section 5.1.1 forward S-box, as the
affine transform of the GF(2^8) multiplicative inverse. -/
def sBoxAt (b : Nat) : Nat :=
  let i := gInv b
  (i ^^^ rotl8 i 1 ^^^ rotl8 i 2 ^^^ rotl8 i 3 ^^^ rotl8 i 4 ^^^ 99) % 256

/-- Modelled from the spec: the FIPS-197 inverse S-box (inverse affine
transform followed by GF(2^8) inversion). -/
def rsBoxAt (b : Nat) : Nat :=
  gInv ((rotl8 b 1 ^^^ rotl8 b 3 ^^^ rotl8 b 6 ^^^ 5) % 256)

/-- Modelled from the spec: identity multiplier (byte-normalising). -/
def mul1 (x : Nat) : Nat := x % 256

/-- Modelled from the spec: GF(2^8) multiplication by 0x02. -/
def mul2 (x : Nat) : Nat := xtime x

/-- Modelled from the spec: GF(2^8) multiplication by 0x03. -/
def mul3 (x : Nat) : Nat := xtime x ^^^ (x % 256)

/-- Modelled from the spec: GF(2^8) multiplication by 0x09. -/
def mul9 (x : Nat) : Nat := xtime (xtime (xtime x)) ^^^ (x % 256)

/-- Modelled from the spec: GF(2^8) multiplication by 0x0B. -/
def mul11 (x : Nat) : Nat := xtime (xtime (xtime x)) ^^^ xtime x ^^^ (x % 256)

/-- Modelled from the spec: GF(2^8) multiplication by 0x0D. -/
def mul13 (x : Nat) : Nat :=
  xtime (xtime (xtime x)) ^^^ xtime (xtime x) ^^^ (x % 256)

/-- Modelled from the spec: GF(2^8) multiplication by 0x0E. -/
def mul14 (x : Nat) : Nat :=
  xtime (xtime (xtime x)) ^^^ xtime (xtime x) ^^^ xtime x

/-- Modelled from the spec: `sub_bytes` / ops.c `sub_block` -- apply the S-box
to every byte of the 16-byte state (spec section 4.2). -/
def sub_block (s : List Nat) : List Nat := s.map sBoxAt

/-- Modelled from the spec: inverse S-box applied byte-wise (ops.c
`inv_sub_block`). -/
def inv_sub_block (s : List Nat) : List Nat := s.map rsBoxAt

/-- Modelled from the spec: `shift_rows` -- row r of the column-major 4x4 state
(byte at offset 4c + r) is rotated left by r positions (spec section 4.2). -/
def shift_rows : List Nat → List Nat
  | [s0, s1, s2, s3, s4, s5, s6, s7, s8, s9, s10, s11, s12, s13, s14, s15] =>
      [s0, s5, s10, s15, s4, s9, s14, s3, s8, s13, s2, s7, s12, s1, s6, s11]
  | s => s

/-- Modelled from the spec: `inv_shift_rows` -- row r rotated right by r. -/
def inv_shift_rows : List Nat → List Nat
  | [s0, s1, s2, s3, s4, s5, s6, s7, s8, s9, s10, s11, s12, s13, s14, s15] =>
      [s0, s13, s10, s7, s4, s1, s14, s11, s8, s5, s2, s15, s12, s9, s6, s3]
  | s => s

/-- Modelled from the spec: first row of the MixColumns MDS matrix [2,3,1,1]
applied to one column (spec section 4.2). -/
def mixCol0 (a b c d : Nat) : Nat := mul2 a ^^^ mul3 b ^^^ mul1 c ^^^ mul1 d

/-- Modelled from the spec: second MixColumns row [1,2,3,1]. -/
def mixCol1 (a b c d : Nat) : Nat := mul1 a ^^^ mul2 b ^^^ mul3 c ^^^ mul1 d

/-- Modelled from the spec: third MixColumns row [1,1,2,3]. -/
def mixCol2 (a b c d : Nat) : Nat := mul1 a ^^^ mul1 b ^^^ mul2 c ^^^ mul3 d

/-- Modelled from the spec: fourth MixColumns row [3,1,1,2]. -/
def mixCol3 (a b c d : Nat) : Nat := mul3 a ^^^ mul1 b ^^^ mul1 c ^^^ mul2 d

/-- Modelled from the spec: first inverse MixColumns row [0x0E,0x0B,0x0D,0x09]. -/
def invMixCol0 (a b c d : Nat) : Nat :=
  mul14 a ^^^ mul11 b ^^^ mul13 c ^^^ mul9 d

/-- Modelled from the spec: second inverse MixColumns row [0x09,0x0E,0x0B,0x0D]. -/
def invMixCol1 (a b c d : Nat) : Nat :=
  mul9 a ^^^ mul14 b ^^^ mul11 c ^^^ mul13 d

/-- Modelled from the spec: third inverse MixColumns row [0x0D,0x09,0x0E,0x0B]. -/
def invMixCol2 (a b c d : Nat) : Nat :=
  mul13 a ^^^ mul9 b ^^^ mul14 c ^^^ mul11 d

/-- Modelled from the spec: fourth inverse MixColumns row [0x0B,0x0D,0x09,0x0E]. -/
def invMixCol3 (a b c d : Nat) : Nat :=
  mul11 a ^^^ mul13 b ^^^ mul9 c ^^^ mul14 d

/-- Modelled from the spec: `mix_columns` -- multiply each of the four columns
of the state by the MDS matrix (spec section 4.2). -/
def mix_columns : List Nat → List Nat
  | [a0, a1, a2, a3, b0, b1, b2, b3, c0, c1, c2, c3, d0, d1, d2, d3] =>
      [mixCol0 a0 a1 a2 a3, mixCol1 a0 a1 a2 a3, mixCol2 a0 a1 a2 a3, mixCol3 a0 a1 a2 a3,
       mixCol0 b0 b1 b2 b3, mixCol1 b0 b1 b2 b3, mixCol2 b0 b1 b2 b3, mixCol3 b0 b1 b2 b3,
       mixCol0 c0 c1 c2 c3, mixCol1 c0 c1 c2 c3, mixCol2 c0 c1 c2 c3, mixCol3 c0 c1 c2 c3,
       mixCol0 d0 d1 d2 d3, mixCol1 d0 d1 d2 d3, mixCol2 d0 d1 d2 d3, mixCol3 d0 d1 d2 d3]
  | s => s

/-- Modelled from the spec: `inv_mix_columns` with the inverse MDS matrix. -/
def inv_mix_columns : List Nat → List Nat
  | [a0, a1, a2, a3, b0, b1, b2, b3, c0, c1, c2, c3, d0, d1, d2, d3] =>
      [invMixCol0 a0 a1 a2 a3, invMixCol1 a0 a1 a2 a3, invMixCol2 a0 a1 a2 a3, invMixCol3 a0 a1 a2 a3,
       invMixCol0 b0 b1 b2 b3, invMixCol1 b0 b1 b2 b3, invMixCol2 b0 b1 b2 b3, invMixCol3 b0 b1 b2 b3,
       invMixCol0 c0 c1 c2 c3, invMixCol1 c0 c1 c2 c3, invMixCol2 c0 c1 c2 c3, invMixCol3 c0 c1 c2 c3,
       invMixCol0 d0 d1 d2 d3, invMixCol1 d0 d1 d2 d3, invMixCol2 d0 d1 d2 d3, invMixCol3 d0 d1 d2 d3]
  | s => s

/-- Byte `r` (0 = most significant) of a big-endian-packed 32-bit word. -/
def wordByte (w r : Nat) : Nat := (w >>> (8 * (3 - r))) % 256

/-- Modelled from the spec: `add_round_key` -- XOR the 16-byte state with the
four schedule words `kschd[4*round .. 4*round+3]`; byte at offset 4c + r is
XORed with byte r of word 4*round + c (spec sections 4.2 and 6, big-endian
packing). -/
def add_round_key (s kschd : List Nat) (round : Nat) : List Nat :=
  match s with
  | [a0, a1, a2, a3, b0, b1, b2, b3, c0, c1, c2, c3, d0, d1, d2, d3] =>
      [a0 ^^^ wordByte (kschd.getD (4 * round) 0) 0,
       a1 ^^^ wordByte (kschd.getD (4 * round) 0) 1,
       a2 ^^^ wordByte (kschd.getD (4 * round) 0) 2,
       a3 ^^^ wordByte (kschd.getD (4 * round) 0) 3,
       b0 ^^^ wordByte (kschd.getD (4 * round + 1) 0) 0,
       b1 ^^^ wordByte (kschd.getD (4 * round + 1) 0) 1,
       b2 ^^^ wordByte (kschd.getD (4 * round + 1) 0) 2,
       b3 ^^^ wordByte (kschd.getD (4 * round + 1) 0) 3,
       c0 ^^^ wordByte (kschd.getD (4 * round + 2) 0) 0,
       c1 ^^^ wordByte (kschd.getD (4 * round + 2) 0) 1,
       c2 ^^^ wordByte (kschd.getD (4 * round + 2) 0) 2,
       c3 ^^^ wordByte (kschd.getD (4 * round + 2) 0) 3,
       d0 ^^^ wordByte (kschd.getD (4 * round + 3) 0) 0,
       d1 ^^^ wordByte (kschd.getD (4 * round + 3) 0) 1,
       d2 ^^^ wordByte (kschd.getD (4 * round + 3) 0) 2,
       d3 ^^^ wordByte (kschd.getD (4 * round + 3) 0) 3]
  | s => s

/-- Modelled from the spec: pack key bytes 4i .. 4i+3 into word i,
big-endian (spec section 4.3). -/
def keyWord (key : List Nat) (i : Nat) : Nat :=
  ((key.getD (4 * i) 0 % 256) <<< 24) ^^^ ((key.getD (4 * i + 1) 0 % 256) <<< 16) ^^^
    ((key.getD (4 * i + 2) 0 % 256) <<< 8) ^^^ (key.getD (4 * i + 3) 0 % 256)

/-- Modelled from the spec: `RotWord` -- left-rotate the four bytes of a word
by one byte (spec section 4.3). -/
def rotWord (w : Nat) : Nat :=
  ((w % 16777216) <<< 8) ^^^ ((w % 4294967296) >>> 24)

/-- Modelled from the spec: `SubWord` -- apply the S-box to each byte of a
word (spec section 4.3). -/
def subWord (w : Nat) : Nat :=
  (sBoxAt ((w >>> 24) % 256) <<< 24) ^^^ (sBoxAt ((w >>> 16) % 256) <<< 16) ^^^
    (sBoxAt ((w >>> 8) % 256) <<< 8) ^^^ sBoxAt (w % 256)

/-- Iterated `xtime`: `xtimePow n` is x^n as a GF(2^8) element. -/
def xtimePow : Nat → Nat
  | 0 => 1
  | n + 1 => xtime (xtimePow n)

/-- Modelled from the spec: `Rcon[i]` = x^(i-1) placed in the high byte of a
32-bit word (spec section 4.1). -/
def rconWord (i : Nat) : Nat := xtimePow (i - 1) <<< 24

/-- Modelled from the spec: the word appended at position `ws.length` by one
key-expansion step (spec section 4.3, FIPS-197 section 5.2). -/
def ksNext (ws : List Nat) (Nk : Nat) : Nat :=
  let i := ws.length
  let temp := ws.getD (i - 1) 0
  let temp2 :=
    if i % Nk = 0 then subWord (rotWord temp) ^^^ rconWord (i / Nk)
    else if 6 < Nk ∧ i % Nk = 4 then subWord temp
    else temp
  ws.getD (i - Nk) 0 ^^^ temp2

/-- Key-expansion loop: append `n` further words to the schedule. -/
def ksGo (Nk : Nat) : Nat → List Nat → List Nat
  | 0, ws => ws
  | n + 1, ws => ksGo Nk n (ws ++ [ksNext ws Nk])

/-- Modelled from the spec: `key_expansion` -- copy the `Nk` master-key words
and extend the schedule to `total` words (spec section 4.3). -/
def key_expansion (key : List Nat) (Nk total : Nat) : List Nat :=
  ksGo Nk (total - Nk) ((List.range Nk).map (keyWord key))

/-- Forward cipher on one 16-byte block, from src/uaes.c `uaes_foward_cipher`
(lines 114-140): initial `add_round_key` with round 0, rounds 1 .. Nr-1 of
`sub_block; shift_rows; mix_columns; add_round_key`, and a final round
without MixColumns.  The C function's `Nk` parameter is unused and `Nb` is
always 4; the 16-byte memcpy in/out is handled at the call sites via
`getBlock`/`setBlock`. -/
def uaes_foward_cipher (buf kschd : List Nat) (Nr : Nat) : List Nat :=
  let b0 := add_round_key buf kschd 0
  let bm := (List.range' 1 (Nr - 1)).foldl
    (fun s round => add_round_key (mix_columns (shift_rows (sub_block s))) kschd round) b0
  add_round_key (shift_rows (sub_block bm)) kschd Nr

/-- Inverse cipher on one 16-byte block, from src/uaes.c `uaes_inverse_cipher`
(lines 150-176): `add_round_key` with round Nr, rounds Nr-1 down to 1 of
`inv_shift_rows; inv_sub_block; add_round_key; inv_mix_columns`, and a final
`inv_shift_rows; inv_sub_block; add_round_key 0`. -/
def uaes_inverse_cipher (buf kschd : List Nat) (Nr : Nat) : List Nat :=
  let b0 := add_round_key buf kschd Nr
  let bm := ((List.range' 1 (Nr - 1)).reverse).foldl
    (fun s round => inv_mix_columns (add_round_key (inv_sub_block (inv_shift_rows s)) kschd round)) b0
  add_round_key (inv_sub_block (inv_shift_rows bm)) kschd 0

/-- XOR helper from src/uaes.c `uaes_xor_iv` (lines 93-103): XORs the 16 bytes
of `iv` into `blk`.  The second component is the `iv` buffer after the call;
the C loop stores only into `blk`, so it is returned unchanged. -/
def uaes_xor_iv (blk iv : List Nat) : List Nat × List Nat :=
  (List.zipWith (fun x y => x ^^^ y) blk iv, iv)

/-- Nk selection from the nested conditionals of src/uaes.c (lines 205, 258,
311, 359): 4/6/8 words for modes 0/1/2, otherwise 0. -/
def NkOf (mode : Nat) : Nat :=
  if mode = 0 then 4 else if mode = 1 then 6 else if mode = 2 then 8 else 0

/-- Nr selection from src/uaes.c (lines 206, 259, 312, 360): 10/12/14 rounds
for modes 0/1/2, otherwise 0. -/
def NrOf (mode : Nat) : Nat :=
  if mode = 0 then 10 else if mode = 1 then 12 else if mode = 2 then 14 else 0

/-- Block count from src/uaes.c (lines 199-203 etc.): the size is aligned up
to a multiple of 16 when needed, then shifted right by 4.  The `uAES_ALIGN`
macro is not under src/; modelled from the spec (section 4.4: round
`buffer_size` up to the next multiple of 16). -/
def offsetOf (size : Nat) : Nat :=
  (if size % 16 ≠ 0 then ((size + 15) / 16) * 16 else size) / 16

/-- The 16-byte block at index `idx` of a byte buffer (the C pointer
`&buf[16*idx]` read by the 16-byte memcpy). -/
def getBlock (buf : List Nat) (idx : Nat) : List Nat :=
  (buf.drop (16 * idx)).take 16

/-- Write the 16-byte block `b` at block index `idx` of a byte buffer (the C
16-byte memcpy to `&buf[16*idx]`). -/
def setBlock (buf : List Nat) (idx : Nat) (b : List Nat) : List Nat :=
  buf.take (16 * idx) ++ b ++ buf.drop (16 * idx + 16)

/-- ECB encryption from src/uaes.c `uaes_ecb_encryption` (lines 296-330).
Returns the error code, the plaintext buffer and the key buffer after the
call (the key is only ever read, by `key_expansion`). -/
def uaes_ecb_encryption (plaintext : Option (List Nat)) (size : Nat)
    (key : Option (List Nat)) (mode : Nat) :
    Int × Option (List Nat) × Option (List Nat) :=
  match plaintext, key with
  | some p, some k =>
    if 0 < size ∧ size ≤ 64 ∧ mode < 3 then
      let ks := key_expansion k (NkOf mode) (4 * (NrOf mode + 1))
      (0, some ((List.range (offsetOf size)).foldl
        (fun b idx => setBlock b idx (uaes_foward_cipher (getBlock b idx) ks (NrOf mode))) p),
       some k)
    else (-1, plaintext, key)
  | _, _ => (-1, plaintext, key)

/-- ECB decryption from src/uaes.c `uaes_ecb_decryption` (lines 344-378). -/
def uaes_ecb_decryption (ciphertext : Option (List Nat)) (size : Nat)
    (key : Option (List Nat)) (mode : Nat) :
    Int × Option (List Nat) × Option (List Nat) :=
  match ciphertext, key with
  | some c, some k =>
    if 0 < size ∧ size ≤ 64 ∧ mode < 3 then
      let ks := key_expansion k (NkOf mode) (4 * (NrOf mode + 1))
      (0, some ((List.range (offsetOf size)).foldl
        (fun b idx => setBlock b idx (uaes_inverse_cipher (getBlock b idx) ks (NrOf mode))) c),
       some k)
    else (-1, ciphertext, key)
  | _, _ => (-1, ciphertext, key)

/-- CBC encryption chaining loop of src/uaes.c (lines 220-225): for idx from 1
while offset > idx, XOR block idx with the just-produced ciphertext block
idx-1, then apply the forward cipher in place. -/
def cbcEncLoop (ks : List Nat) (Nr : Nat) (p : List Nat) (offset : Nat) : List Nat :=
  (List.range' 1 (offset - 1)).foldl
    (fun b idx =>
      let bx := setBlock b idx (uaes_xor_iv (getBlock b idx) (getBlock b (idx - 1))).1
      setBlock bx idx (uaes_foward_cipher (getBlock bx idx) ks Nr))
    p

/-- CBC encryption from src/uaes.c `uaes_cbc_encryption` (lines 189-229).
Returns the error code and the plaintext, key and IV buffers after the call;
the IV component comes from `uaes_xor_iv`, which never stores into it. -/
def uaes_cbc_encryption (plaintext : Option (List Nat)) (size : Nat)
    (key iv : Option (List Nat)) (mode : Nat) :
    Int × Option (List Nat) × Option (List Nat) × Option (List Nat) :=
  match plaintext, key, iv with
  | some p, some k, some v =>
    if 0 < size ∧ size ≤ 64 ∧ mode < 3 then
      let ks := key_expansion k (NkOf mode) (4 * (NrOf mode + 1))
      let Nr := NrOf mode
      let xres := uaes_xor_iv (getBlock p 0) v
      let p0 := setBlock p 0 xres.1
      let p1 := setBlock p0 0 (uaes_foward_cipher (getBlock p0 0) ks Nr)
      (0, some (cbcEncLoop ks Nr p1 (offsetOf size)), some k, some xres.2)
    else (-1, plaintext, key, iv)
  | _, _, _ => (-1, plaintext, key, iv)

/-- CBC decryption walk of src/uaes.c (lines 271-276): from idx = offset-1
down to 1, apply the inverse cipher to block idx in place, then XOR the
still-untouched ciphertext block idx-1 into it. -/
def cbcDecLoop (ks : List Nat) (Nr : Nat) : List Nat → Nat → List Nat
  | b, 0 => b
  | b, n + 1 =>
      let b1 := setBlock b (n + 1) (uaes_inverse_cipher (getBlock b (n + 1)) ks Nr)
      let b2 := setBlock b1 (n + 1) (uaes_xor_iv (getBlock b1 (n + 1)) (getBlock b1 n)).1
      cbcDecLoop ks Nr b2 n

/-- CBC decryption from src/uaes.c `uaes_cbc_decryption` (lines 242-282):
reverse block walk, then inverse cipher on block 0 followed by XOR with the
IV.  Returns the error code and the ciphertext, key and IV buffers after the
call. -/
def uaes_cbc_decryption (ciphertext : Option (List Nat)) (size : Nat)
    (key iv : Option (List Nat)) (mode : Nat) :
    Int × Option (List Nat) × Option (List Nat) × Option (List Nat) :=
  match ciphertext, key, iv with
  | some c, some k, some v =>
    if 0 < size ∧ size ≤ 64 ∧ mode < 3 then
      let ks := key_expansion k (NkOf mode) (4 * (NrOf mode + 1))
      let Nr := NrOf mode
      let c1 := cbcDecLoop ks Nr c (offsetOf size - 1)
      let c2 := setBlock c1 0 (uaes_inverse_cipher (getBlock c1 0) ks Nr)
      let xres := uaes_xor_iv (getBlock c2 0) v
      (0, some (setBlock c2 0 xres.1), some k, some xres.2)
    else (-1, ciphertext, key, iv)
  | _, _, _ => (-1, ciphertext, key, iv)

/-- Single-block AES-128 encryption from src/uaes.c `uaes128enc` (lines
389-401): sizes 1..16 accepted, one forward-cipher application on the 16-byte
block at the buffer start. -/
def uaes128enc (plaintext key : Option (List Nat)) (size : Nat) :
    Int × Option (List Nat) × Option (List Nat) :=
  match plaintext, key with
  | some p, some k =>
    if 0 < size ∧ size ≤ 16 then
      (0, some (setBlock p 0 (uaes_foward_cipher (getBlock p 0) (key_expansion k 4 44) 10)), some k)
    else (-1, plaintext, key)
  | _, _ => (-1, plaintext, key)

/-- Single-block AES-192 encryption from src/uaes.c `uaes192enc` (lines 412-424). -/
def uaes192enc (plaintext key : Option (List Nat)) (size : Nat) :
    Int × Option (List Nat) × Option (List Nat) :=
  match plaintext, key with
  | some p, some k =>
    if 0 < size ∧ size ≤ 16 then
      (0, some (setBlock p 0 (uaes_foward_cipher (getBlock p 0) (key_expansion k 6 52) 12)), some k)
    else (-1, plaintext, key)
  | _, _ => (-1, plaintext, key)

/-- Single-block AES-256 encryption from src/uaes.c `uaes256enc` (lines 435-447). -/
def uaes256enc (plaintext key : Option (List Nat)) (size : Nat) :
    Int × Option (List Nat) × Option (List Nat) :=
  match plaintext, key with
  | some p, some k =>
    if 0 < size ∧ size ≤ 16 then
      (0, some (setBlock p 0 (uaes_foward_cipher (getBlock p 0) (key_expansion k 8 60) 14)), some k)
    else (-1, plaintext, key)
  | _, _ => (-1, plaintext, key)

/-- Single-block AES-128 decryption from src/uaes.c `uaes128dec` (lines 458-470). -/
def uaes128dec (ciphertext key : Option (List Nat)) (size : Nat) :
    Int × Option (List Nat) × Option (List Nat) :=
  match ciphertext, key with
  | some c, some k =>
    if 0 < size ∧ size ≤ 16 then
      (0, some (setBlock c 0 (uaes_inverse_cipher (getBlock c 0) (key_expansion k 4 44) 10)), some k)
    else (-1, ciphertext, key)
  | _, _ => (-1, ciphertext, key)

/-- Single-block AES-192 decryption from src/uaes.c `uaes192dec` (lines 481-493). -/
def uaes192dec (ciphertext key : Option (List Nat)) (size : Nat) :
    Int × Option (List Nat) × Option (List Nat) :=
  match ciphertext, key with
  | some c, some k =>
    if 0 < size ∧ size ≤ 16 then
      (0, some (setBlock c 0 (uaes_inverse_cipher (getBlock c 0) (key_expansion k 6 52) 12)), some k)
    else (-1, ciphertext, key)
  | _, _ => (-1, ciphertext, key)

/-- Single-block AES-256 decryption from src/uaes.c `uaes256dec` (lines 504-516). -/
def uaes256dec (ciphertext key : Option (List Nat)) (size : Nat) :
    Int × Option (List Nat) × Option (List Nat) :=
  match ciphertext, key with
  | some c, some k =>
    if 0 < size ∧ size ≤ 16 then
      (0, some (setBlock c 0 (uaes_inverse_cipher (getBlock c 0) (key_expansion k 8 60) 14)), some k)
    else (-1, ciphertext, key)
  | _, _ => (-1, ciphertext, key)

/-- Spec-shaped middle rounds: `fwdRounds ks s n` performs rounds 1 .. n of
`sub_bytes; shift_rows; mix_columns; add_round_key(round)` (spec section 4.2,
step 2), written as structural recursion with the last round outermost. -/
def fwdRounds (ks : List Nat) (s : List Nat) : Nat → List Nat
  | 0 => s
  | n + 1 => add_round_key (mix_columns (shift_rows (sub_block (fwdRounds ks s n)))) ks (n + 1)

/-- Spec-shaped inverse middle rounds: `invRounds ks s n` performs rounds
n down to 1 of `inv_shift_rows; inv_sub_bytes; add_round_key(round);
inv_mix_columns` (spec section 4.2). -/
def invRounds (ks : List Nat) : List Nat → Nat → List Nat
  | s, 0 => s
  | s, n + 1 =>
      invRounds ks (inv_mix_columns (add_round_key (inv_sub_block (inv_shift_rows s)) ks (n + 1))) n

/-- The forward cipher exactly as the specification words it (spec section
4.2: AddRoundKey round 0; rounds 1 .. Nr-1; final round without MixColumns). -/
def specForwardCipher (ks : List Nat) (Nr : Nat) (b : List Nat) : List Nat :=
  add_round_key (shift_rows (sub_block (fwdRounds ks (add_round_key b ks 0) (Nr - 1)))) ks Nr

/-- A well-formed 16-byte state: length 16 with every byte below 256. -/
def B16 (s : List Nat) : Prop := s.length = 16 ∧ ∀ x ∈ s, x < 256

/-- The CBC ciphertext block chain (spec section 4.4.3): block 0 is the forward
cipher of plaintext block 0 XOR IV, and block j+1 is the forward cipher of
plaintext block j+1 XOR ciphertext block j. -/
def cbcChain (ks : List Nat) (Nr : Nat) (p iv : List Nat) : Nat → List Nat
  | 0 => uaes_foward_cipher (uaes_xor_iv (getBlock p 0) iv).1 ks Nr
  | j + 1 => uaes_foward_cipher (uaes_xor_iv (getBlock p (j + 1)) (cbcChain ks Nr p iv j)).1 ks Nr

set_option maxRecDepth 8000

/-! ### Byte-level lemmas -/

theorem xor_lt256 {a b : Nat} (ha : a < 256) (hb : b < 256) : a ^^^ b < 256 := by
  have e : (256 : Nat) = 2 ^ 8 := by norm_num
  rw [e] at ha hb ⊢
  exact Nat.xor_lt_two_pow ha hb

theorem xor_cancel2 (a b : Nat) : a ^^^ b ^^^ b = a := Nat.xor_cancel_right b a

theorem xor_left_comm (q r s : Nat) : q ^^^ (r ^^^ s) = r ^^^ (q ^^^ s) := by
  rw [← Nat.xor_assoc, Nat.xor_comm q r, Nat.xor_assoc]

theorem xor_swap4 (p q r s : Nat) : (p ^^^ q) ^^^ (r ^^^ s) = (p ^^^ r) ^^^ (q ^^^ s) := by
  rw [Nat.xor_assoc, xor_left_comm q r s, ← Nat.xor_assoc]

theorem xtime_lt (x : Nat) : xtime x < 256 := by
  unfold xtime
  apply xor_lt256
  · exact Nat.mod_lt _ (by norm_num)
  · split <;> norm_num

theorem two_mul_xor (a b : Nat) : 2 * (a ^^^ b) = 2 * a ^^^ 2 * b := by
  have h : ∀ x : Nat, 2 * x = x <<< 1 := by
    intro x
    rw [Nat.shiftLeft_eq]
    ring
  rw [h, h, h]
  apply Nat.eq_of_testBit_eq
  intro i
  cases i with
  | zero =>
    simp only [Nat.testBit_shiftLeft, Nat.testBit_xor, Nat.shiftLeft_eq]
    norm_num
  | succ n => simp [Nat.testBit_shiftLeft, Nat.testBit_xor]

theorem mod256_xor (a b : Nat) : (a ^^^ b) % 256 = a % 256 ^^^ b % 256 := by
  have e : (256 : Nat) = 2 ^ 8 := by norm_num
  rw [e]
  apply Nat.eq_of_testBit_eq
  intro i
  simp only [Nat.testBit_mod_two_pow, Nat.testBit_xor]
  cases hd : decide (i < 8) <;> simp

theorem msb_iff {x : Nat} (h : x < 256) : 128 ≤ x ↔ x.testBit 7 = true := by
  rw [Nat.testBit_to_div_mod, decide_eq_true_eq]
  have e : (2 : Nat) ^ 7 = 128 := by norm_num
  rw [e]
  omega

theorem notMsb_bit {x : Nat} (hx : x < 256) (h : ¬ 128 ≤ x) : x.testBit 7 = false := by
  cases hb : x.testBit 7 with
  | false => rfl
  | true => exact absurd ((msb_iff hx).mpr hb) h

theorem xtime_xor {a b : Nat} (ha : a < 256) (hb : b < 256) :
    xtime (a ^^^ b) = xtime a ^^^ xtime b := by
  have hab : a ^^^ b < 256 := xor_lt256 ha hb
  unfold xtime
  rw [Nat.mod_eq_of_lt hab, Nat.mod_eq_of_lt ha, Nat.mod_eq_of_lt hb, two_mul_xor, mod256_xor]
  have h7 : (a ^^^ b).testBit 7 = (a.testBit 7 ^^ b.testBit 7) := Nat.testBit_xor a b 7
  by_cases h1 : 128 ≤ a <;> by_cases h2 : 128 ≤ b
  · have hx : ¬ 128 ≤ (a ^^^ b) := by
      rw [msb_iff hab, h7, (msb_iff ha).mp h1, (msb_iff hb).mp h2]
      simp
    rw [if_pos h1, if_pos h2, if_neg hx, xor_swap4]
    simp
  · have hx : 128 ≤ (a ^^^ b) := by
      rw [msb_iff hab, h7, (msb_iff ha).mp h1, notMsb_bit hb h2]
      simp
    rw [if_pos h1, if_neg h2, if_pos hx, xor_swap4]
    simp
  · have hx : 128 ≤ (a ^^^ b) := by
      rw [msb_iff hab, h7, notMsb_bit ha h1, (msb_iff hb).mp h2]
      simp
    rw [if_neg h1, if_pos h2, if_pos hx, xor_swap4]
    simp
  · have hx : ¬ 128 ≤ (a ^^^ b) := by
      rw [msb_iff hab, h7, notMsb_bit ha h1, notMsb_bit hb h2]
      simp
    rw [if_neg h1, if_neg h2, if_neg hx, xor_swap4]
    simp

theorem xtime2_xor {a b : Nat} (ha : a < 256) (hb : b < 256) :
    xtime (xtime (a ^^^ b)) = xtime (xtime a) ^^^ xtime (xtime b) := by
  rw [xtime_xor ha hb, xtime_xor (xtime_lt a) (xtime_lt b)]

theorem xtime3_xor {a b : Nat} (ha : a < 256) (hb : b < 256) :
    xtime (xtime (xtime (a ^^^ b))) = xtime (xtime (xtime a)) ^^^ xtime (xtime (xtime b)) := by
  rw [xtime2_xor ha hb, xtime_xor (xtime_lt (xtime a)) (xtime_lt (xtime b))]

theorem mul1_lt (x : Nat) : mul1 x < 256 := Nat.mod_lt _ (by norm_num)

theorem mul2_lt (x : Nat) : mul2 x < 256 := xtime_lt x

theorem mul3_lt (x : Nat) : mul3 x < 256 := xor_lt256 (xtime_lt x) (Nat.mod_lt _ (by norm_num))

theorem mul9_lt (x : Nat) : mul9 x < 256 :=
  xor_lt256 (xtime_lt _) (Nat.mod_lt _ (by norm_num))

theorem mul11_lt (x : Nat) : mul11 x < 256 :=
  xor_lt256 (xor_lt256 (xtime_lt _) (xtime_lt _)) (Nat.mod_lt _ (by norm_num))

theorem mul13_lt (x : Nat) : mul13 x < 256 :=
  xor_lt256 (xor_lt256 (xtime_lt _) (xtime_lt _)) (Nat.mod_lt _ (by norm_num))

theorem mul14_lt (x : Nat) : mul14 x < 256 :=
  xor_lt256 (xor_lt256 (xtime_lt _) (xtime_lt _)) (xtime_lt _)

theorem mul1_xor {a b : Nat} (_ha : a < 256) (_hb : b < 256) :
    mul1 (a ^^^ b) = mul1 a ^^^ mul1 b := by
  unfold mul1
  exact mod256_xor a b

theorem mul2_xor {a b : Nat} (ha : a < 256) (hb : b < 256) :
    mul2 (a ^^^ b) = mul2 a ^^^ mul2 b := xtime_xor ha hb

theorem mul3_xor {a b : Nat} (ha : a < 256) (hb : b < 256) :
    mul3 (a ^^^ b) = mul3 a ^^^ mul3 b := by
  unfold mul3
  rw [xtime_xor ha hb, mod256_xor, xor_swap4]

theorem mul9_xor {a b : Nat} (ha : a < 256) (hb : b < 256) :
    mul9 (a ^^^ b) = mul9 a ^^^ mul9 b := by
  unfold mul9
  rw [xtime3_xor ha hb, mod256_xor, xor_swap4]

theorem mul11_xor {a b : Nat} (ha : a < 256) (hb : b < 256) :
    mul11 (a ^^^ b) = mul11 a ^^^ mul11 b := by
  unfold mul11
  rw [xtime3_xor ha hb, xtime_xor ha hb, mod256_xor]
  simp [Nat.xor_assoc, Nat.xor_comm, xor_left_comm]

theorem mul13_xor {a b : Nat} (ha : a < 256) (hb : b < 256) :
    mul13 (a ^^^ b) = mul13 a ^^^ mul13 b := by
  unfold mul13
  rw [xtime3_xor ha hb, xtime2_xor ha hb, mod256_xor]
  simp [Nat.xor_assoc, Nat.xor_comm, xor_left_comm]

theorem mul14_xor {a b : Nat} (ha : a < 256) (hb : b < 256) :
    mul14 (a ^^^ b) = mul14 a ^^^ mul14 b := by
  unfold mul14
  rw [xtime3_xor ha hb, xtime2_xor ha hb, xtime_xor ha hb]
  simp [Nat.xor_assoc, Nat.xor_comm, xor_left_comm]

/-! ### MixColumns column lemmas -/

theorem mixCol0_lt (a b c d : Nat) : mixCol0 a b c d < 256 :=
  xor_lt256 (xor_lt256 (xor_lt256 (mul2_lt a) (mul3_lt b)) (mul1_lt c)) (mul1_lt d)

theorem mixCol1_lt (a b c d : Nat) : mixCol1 a b c d < 256 :=
  xor_lt256 (xor_lt256 (xor_lt256 (mul1_lt a) (mul2_lt b)) (mul3_lt c)) (mul1_lt d)

theorem mixCol2_lt (a b c d : Nat) : mixCol2 a b c d < 256 :=
  xor_lt256 (xor_lt256 (xor_lt256 (mul1_lt a) (mul1_lt b)) (mul2_lt c)) (mul3_lt d)

theorem mixCol3_lt (a b c d : Nat) : mixCol3 a b c d < 256 :=
  xor_lt256 (xor_lt256 (xor_lt256 (mul3_lt a) (mul1_lt b)) (mul1_lt c)) (mul2_lt d)

theorem mixCol0_xor {a b c d a2 b2 c2 d2 : Nat} (ha : a < 256) (hb : b < 256)
    (hc : c < 256) (hd : d < 256) (ha2 : a2 < 256) (hb2 : b2 < 256)
    (hc2 : c2 < 256) (hd2 : d2 < 256) :
    mixCol0 (a ^^^ a2) (b ^^^ b2) (c ^^^ c2) (d ^^^ d2) =
      mixCol0 a b c d ^^^ mixCol0 a2 b2 c2 d2 := by
  unfold mixCol0
  rw [mul2_xor ha ha2, mul3_xor hb hb2, mul1_xor hc hc2, mul1_xor hd hd2]
  simp [Nat.xor_assoc, Nat.xor_comm, xor_left_comm]

theorem mixCol1_xor {a b c d a2 b2 c2 d2 : Nat} (ha : a < 256) (hb : b < 256)
    (hc : c < 256) (hd : d < 256) (ha2 : a2 < 256) (hb2 : b2 < 256)
    (hc2 : c2 < 256) (hd2 : d2 < 256) :
    mixCol1 (a ^^^ a2) (b ^^^ b2) (c ^^^ c2) (d ^^^ d2) =
      mixCol1 a b c d ^^^ mixCol1 a2 b2 c2 d2 := by
  unfold mixCol1
  rw [mul1_xor ha ha2, mul2_xor hb hb2, mul3_xor hc hc2, mul1_xor hd hd2]
  simp [Nat.xor_assoc, Nat.xor_comm, xor_left_comm]

theorem mixCol2_xor {a b c d a2 b2 c2 d2 : Nat} (ha : a < 256) (hb : b < 256)
    (hc : c < 256) (hd : d < 256) (ha2 : a2 < 256) (hb2 : b2 < 256)
    (hc2 : c2 < 256) (hd2 : d2 < 256) :
    mixCol2 (a ^^^ a2) (b ^^^ b2) (c ^^^ c2) (d ^^^ d2) =
      mixCol2 a b c d ^^^ mixCol2 a2 b2 c2 d2 := by
  unfold mixCol2
  rw [mul1_xor ha ha2, mul1_xor hb hb2, mul2_xor hc hc2, mul3_xor hd hd2]
  simp [Nat.xor_assoc, Nat.xor_comm, xor_left_comm]

theorem mixCol3_xor {a b c d a2 b2 c2 d2 : Nat} (ha : a < 256) (hb : b < 256)
    (hc : c < 256) (hd : d < 256) (ha2 : a2 < 256) (hb2 : b2 < 256)
    (hc2 : c2 < 256) (hd2 : d2 < 256) :
    mixCol3 (a ^^^ a2) (b ^^^ b2) (c ^^^ c2) (d ^^^ d2) =
      mixCol3 a b c d ^^^ mixCol3 a2 b2 c2 d2 := by
  unfold mixCol3
  rw [mul3_xor ha ha2, mul1_xor hb hb2, mul1_xor hc hc2, mul2_xor hd hd2]
  simp [Nat.xor_assoc, Nat.xor_comm, xor_left_comm]

theorem colComp0_xor {a b c d a2 b2 c2 d2 : Nat} (ha : a < 256) (hb : b < 256)
    (hc : c < 256) (hd : d < 256) (ha2 : a2 < 256) (hb2 : b2 < 256)
    (hc2 : c2 < 256) (hd2 : d2 < 256) :
    invMixCol0 (mixCol0 (a ^^^ a2) (b ^^^ b2) (c ^^^ c2) (d ^^^ d2))
        (mixCol1 (a ^^^ a2) (b ^^^ b2) (c ^^^ c2) (d ^^^ d2))
        (mixCol2 (a ^^^ a2) (b ^^^ b2) (c ^^^ c2) (d ^^^ d2))
        (mixCol3 (a ^^^ a2) (b ^^^ b2) (c ^^^ c2) (d ^^^ d2)) =
      invMixCol0 (mixCol0 a b c d) (mixCol1 a b c d) (mixCol2 a b c d) (mixCol3 a b c d) ^^^
        invMixCol0 (mixCol0 a2 b2 c2 d2) (mixCol1 a2 b2 c2 d2) (mixCol2 a2 b2 c2 d2)
          (mixCol3 a2 b2 c2 d2) := by
  rw [mixCol0_xor ha hb hc hd ha2 hb2 hc2 hd2, mixCol1_xor ha hb hc hd ha2 hb2 hc2 hd2,
    mixCol2_xor ha hb hc hd ha2 hb2 hc2 hd2, mixCol3_xor ha hb hc hd ha2 hb2 hc2 hd2]
  unfold invMixCol0
  rw [mul14_xor (mixCol0_lt a b c d) (mixCol0_lt a2 b2 c2 d2),
    mul11_xor (mixCol1_lt a b c d) (mixCol1_lt a2 b2 c2 d2),
    mul13_xor (mixCol2_lt a b c d) (mixCol2_lt a2 b2 c2 d2),
    mul9_xor (mixCol3_lt a b c d) (mixCol3_lt a2 b2 c2 d2)]
  simp [Nat.xor_assoc, Nat.xor_comm, xor_left_comm]

theorem colComp1_xor {a b c d a2 b2 c2 d2 : Nat} (ha : a < 256) (hb : b < 256)
    (hc : c < 256) (hd : d < 256) (ha2 : a2 < 256) (hb2 : b2 < 256)
    (hc2 : c2 < 256) (hd2 : d2 < 256) :
    invMixCol1 (mixCol0 (a ^^^ a2) (b ^^^ b2) (c ^^^ c2) (d ^^^ d2))
        (mixCol1 (a ^^^ a2) (b ^^^ b2) (c ^^^ c2) (d ^^^ d2))
        (mixCol2 (a ^^^ a2) (b ^^^ b2) (c ^^^ c2) (d ^^^ d2))
        (mixCol3 (a ^^^ a2) (b ^^^ b2) (c ^^^ c2) (d ^^^ d2)) =
      invMixCol1 (mixCol0 a b c d) (mixCol1 a b c d) (mixCol2 a b c d) (mixCol3 a b c d) ^^^
        invMixCol1 (mixCol0 a2 b2 c2 d2) (mixCol1 a2 b2 c2 d2) (mixCol2 a2 b2 c2 d2)
          (mixCol3 a2 b2 c2 d2) := by
  rw [mixCol0_xor ha hb hc hd ha2 hb2 hc2 hd2, mixCol1_xor ha hb hc hd ha2 hb2 hc2 hd2,
    mixCol2_xor ha hb hc hd ha2 hb2 hc2 hd2, mixCol3_xor ha hb hc hd ha2 hb2 hc2 hd2]
  unfold invMixCol1
  rw [mul9_xor (mixCol0_lt a b c d) (mixCol0_lt a2 b2 c2 d2),
    mul14_xor (mixCol1_lt a b c d) (mixCol1_lt a2 b2 c2 d2),
    mul11_xor (mixCol2_lt a b c d) (mixCol2_lt a2 b2 c2 d2),
    mul13_xor (mixCol3_lt a b c d) (mixCol3_lt a2 b2 c2 d2)]
  simp [Nat.xor_assoc, Nat.xor_comm, xor_left_comm]

theorem colComp2_xor {a b c d a2 b2 c2 d2 : Nat} (ha : a < 256) (hb : b < 256)
    (hc : c < 256) (hd : d < 256) (ha2 : a2 < 256) (hb2 : b2 < 256)
    (hc2 : c2 < 256) (hd2 : d2 < 256) :
    invMixCol2 (mixCol0 (a ^^^ a2) (b ^^^ b2) (c ^^^ c2) (d ^^^ d2))
        (mixCol1 (a ^^^ a2) (b ^^^ b2) (c ^^^ c2) (d ^^^ d2))
        (mixCol2 (a ^^^ a2) (b ^^^ b2) (c ^^^ c2) (d ^^^ d2))
        (mixCol3 (a ^^^ a2) (b ^^^ b2) (c ^^^ c2) (d ^^^ d2)) =
      invMixCol2 (mixCol0 a b c d) (mixCol1 a b c d) (mixCol2 a b c d) (mixCol3 a b c d) ^^^
        invMixCol2 (mixCol0 a2 b2 c2 d2) (mixCol1 a2 b2 c2 d2) (mixCol2 a2 b2 c2 d2)
          (mixCol3 a2 b2 c2 d2) := by
  rw [mixCol0_xor ha hb hc hd ha2 hb2 hc2 hd2, mixCol1_xor ha hb hc hd ha2 hb2 hc2 hd2,
    mixCol2_xor ha hb hc hd ha2 hb2 hc2 hd2, mixCol3_xor ha hb hc hd ha2 hb2 hc2 hd2]
  unfold invMixCol2
  rw [mul13_xor (mixCol0_lt a b c d) (mixCol0_lt a2 b2 c2 d2),
    mul9_xor (mixCol1_lt a b c d) (mixCol1_lt a2 b2 c2 d2),
    mul14_xor (mixCol2_lt a b c d) (mixCol2_lt a2 b2 c2 d2),
    mul11_xor (mixCol3_lt a b c d) (mixCol3_lt a2 b2 c2 d2)]
  simp [Nat.xor_assoc, Nat.xor_comm, xor_left_comm]

theorem colComp3_xor {a b c d a2 b2 c2 d2 : Nat} (ha : a < 256) (hb : b < 256)
    (hc : c < 256) (hd : d < 256) (ha2 : a2 < 256) (hb2 : b2 < 256)
    (hc2 : c2 < 256) (hd2 : d2 < 256) :
    invMixCol3 (mixCol0 (a ^^^ a2) (b ^^^ b2) (c ^^^ c2) (d ^^^ d2))
        (mixCol1 (a ^^^ a2) (b ^^^ b2) (c ^^^ c2) (d ^^^ d2))
        (mixCol2 (a ^^^ a2) (b ^^^ b2) (c ^^^ c2) (d ^^^ d2))
        (mixCol3 (a ^^^ a2) (b ^^^ b2) (c ^^^ c2) (d ^^^ d2)) =
      invMixCol3 (mixCol0 a b c d) (mixCol1 a b c d) (mixCol2 a b c d) (mixCol3 a b c d) ^^^
        invMixCol3 (mixCol0 a2 b2 c2 d2) (mixCol1 a2 b2 c2 d2) (mixCol2 a2 b2 c2 d2)
          (mixCol3 a2 b2 c2 d2) := by
  rw [mixCol0_xor ha hb hc hd ha2 hb2 hc2 hd2, mixCol1_xor ha hb hc hd ha2 hb2 hc2 hd2,
    mixCol2_xor ha hb hc hd ha2 hb2 hc2 hd2, mixCol3_xor ha hb hc hd ha2 hb2 hc2 hd2]
  unfold invMixCol3
  rw [mul11_xor (mixCol0_lt a b c d) (mixCol0_lt a2 b2 c2 d2),
    mul13_xor (mixCol1_lt a b c d) (mixCol1_lt a2 b2 c2 d2),
    mul9_xor (mixCol2_lt a b c d) (mixCol2_lt a2 b2 c2 d2),
    mul14_xor (mixCol3_lt a b c d) (mixCol3_lt a2 b2 c2 d2)]
  simp [Nat.xor_assoc, Nat.xor_comm, xor_left_comm]

/-! ### Decided basis facts for the MixColumns inverse -/

theorem colComp0_a : ∀ a, a < 256 →
    invMixCol0 (mixCol0 a 0 0 0) (mixCol1 a 0 0 0) (mixCol2 a 0 0 0) (mixCol3 a 0 0 0) = a := by
  decide

theorem colComp0_b : ∀ b, b < 256 →
    invMixCol0 (mixCol0 0 b 0 0) (mixCol1 0 b 0 0) (mixCol2 0 b 0 0) (mixCol3 0 b 0 0) = 0 := by
  decide

theorem colComp0_c : ∀ c, c < 256 →
    invMixCol0 (mixCol0 0 0 c 0) (mixCol1 0 0 c 0) (mixCol2 0 0 c 0) (mixCol3 0 0 c 0) = 0 := by
  decide

theorem colComp0_d : ∀ d, d < 256 →
    invMixCol0 (mixCol0 0 0 0 d) (mixCol1 0 0 0 d) (mixCol2 0 0 0 d) (mixCol3 0 0 0 d) = 0 := by
  decide

theorem colComp1_a : ∀ a, a < 256 →
    invMixCol1 (mixCol0 a 0 0 0) (mixCol1 a 0 0 0) (mixCol2 a 0 0 0) (mixCol3 a 0 0 0) = 0 := by
  decide

theorem colComp1_b : ∀ b, b < 256 →
    invMixCol1 (mixCol0 0 b 0 0) (mixCol1 0 b 0 0) (mixCol2 0 b 0 0) (mixCol3 0 b 0 0) = b := by
  decide

theorem colComp1_c : ∀ c, c < 256 →
    invMixCol1 (mixCol0 0 0 c 0) (mixCol1 0 0 c 0) (mixCol2 0 0 c 0) (mixCol3 0 0 c 0) = 0 := by
  decide

theorem colComp1_d : ∀ d, d < 256 →
    invMixCol1 (mixCol0 0 0 0 d) (mixCol1 0 0 0 d) (mixCol2 0 0 0 d) (mixCol3 0 0 0 d) = 0 := by
  decide

theorem colComp2_a : ∀ a, a < 256 →
    invMixCol2 (mixCol0 a 0 0 0) (mixCol1 a 0 0 0) (mixCol2 a 0 0 0) (mixCol3 a 0 0 0) = 0 := by
  decide

theorem colComp2_b : ∀ b, b < 256 →
    invMixCol2 (mixCol0 0 b 0 0) (mixCol1 0 b 0 0) (mixCol2 0 b 0 0) (mixCol3 0 b 0 0) = 0 := by
  decide

theorem colComp2_c : ∀ c, c < 256 →
    invMixCol2 (mixCol0 0 0 c 0) (mixCol1 0 0 c 0) (mixCol2 0 0 c 0) (mixCol3 0 0 c 0) = c := by
  decide

theorem colComp2_d : ∀ d, d < 256 →
    invMixCol2 (mixCol0 0 0 0 d) (mixCol1 0 0 0 d) (mixCol2 0 0 0 d) (mixCol3 0 0 0 d) = 0 := by
  decide

theorem colComp3_a : ∀ a, a < 256 →
    invMixCol3 (mixCol0 a 0 0 0) (mixCol1 a 0 0 0) (mixCol2 a 0 0 0) (mixCol3 a 0 0 0) = 0 := by
  decide

theorem colComp3_b : ∀ b, b < 256 →
    invMixCol3 (mixCol0 0 b 0 0) (mixCol1 0 b 0 0) (mixCol2 0 b 0 0) (mixCol3 0 b 0 0) = 0 := by
  decide

theorem colComp3_c : ∀ c, c < 256 →
    invMixCol3 (mixCol0 0 0 c 0) (mixCol1 0 0 c 0) (mixCol2 0 0 c 0) (mixCol3 0 0 c 0) = 0 := by
  decide

theorem colComp3_d : ∀ d, d < 256 →
    invMixCol3 (mixCol0 0 0 0 d) (mixCol1 0 0 0 d) (mixCol2 0 0 0 d) (mixCol3 0 0 0 d) = d := by
  decide

/-! ### Column inversion -/

theorem colInv0 {a b c d : Nat} (ha : a < 256) (hb : b < 256) (hc : c < 256) (hd : d < 256) :
    invMixCol0 (mixCol0 a b c d) (mixCol1 a b c d) (mixCol2 a b c d) (mixCol3 a b c d) = a := by
  have h0 : (0 : Nat) < 256 := by norm_num
  have d1 := colComp0_xor ha h0 h0 h0 h0 hb hc hd
  simp only [Nat.xor_zero, Nat.zero_xor] at d1
  have d2 := colComp0_xor h0 hb h0 h0 h0 h0 hc hd
  simp only [Nat.xor_zero, Nat.zero_xor] at d2
  have d3 := colComp0_xor h0 h0 hc h0 h0 h0 h0 hd
  simp only [Nat.xor_zero, Nat.zero_xor] at d3
  rw [d1, d2, d3, colComp0_a a ha, colComp0_b b hb, colComp0_c c hc, colComp0_d d hd]
  simp

theorem colInv1 {a b c d : Nat} (ha : a < 256) (hb : b < 256) (hc : c < 256) (hd : d < 256) :
    invMixCol1 (mixCol0 a b c d) (mixCol1 a b c d) (mixCol2 a b c d) (mixCol3 a b c d) = b := by
  have h0 : (0 : Nat) < 256 := by norm_num
  have d1 := colComp1_xor ha h0 h0 h0 h0 hb hc hd
  simp only [Nat.xor_zero, Nat.zero_xor] at d1
  have d2 := colComp1_xor h0 hb h0 h0 h0 h0 hc hd
  simp only [Nat.xor_zero, Nat.zero_xor] at d2
  have d3 := colComp1_xor h0 h0 hc h0 h0 h0 h0 hd
  simp only [Nat.xor_zero, Nat.zero_xor] at d3
  rw [d1, d2, d3, colComp1_a a ha, colComp1_b b hb, colComp1_c c hc, colComp1_d d hd]
  simp

theorem colInv2 {a b c d : Nat} (ha : a < 256) (hb : b < 256) (hc : c < 256) (hd : d < 256) :
    invMixCol2 (mixCol0 a b c d) (mixCol1 a b c d) (mixCol2 a b c d) (mixCol3 a b c d) = c := by
  have h0 : (0 : Nat) < 256 := by norm_num
  have d1 := colComp2_xor ha h0 h0 h0 h0 hb hc hd
  simp only [Nat.xor_zero, Nat.zero_xor] at d1
  have d2 := colComp2_xor h0 hb h0 h0 h0 h0 hc hd
  simp only [Nat.xor_zero, Nat.zero_xor] at d2
  have d3 := colComp2_xor h0 h0 hc h0 h0 h0 h0 hd
  simp only [Nat.xor_zero, Nat.zero_xor] at d3
  rw [d1, d2, d3, colComp2_a a ha, colComp2_b b hb, colComp2_c c hc, colComp2_d d hd]
  simp

theorem colInv3 {a b c d : Nat} (ha : a < 256) (hb : b < 256) (hc : c < 256) (hd : d < 256) :
    invMixCol3 (mixCol0 a b c d) (mixCol1 a b c d) (mixCol2 a b c d) (mixCol3 a b c d) = d := by
  have h0 : (0 : Nat) < 256 := by norm_num
  have d1 := colComp3_xor ha h0 h0 h0 h0 hb hc hd
  simp only [Nat.xor_zero, Nat.zero_xor] at d1
  have d2 := colComp3_xor h0 hb h0 h0 h0 h0 hc hd
  simp only [Nat.xor_zero, Nat.zero_xor] at d2
  have d3 := colComp3_xor h0 h0 hc h0 h0 h0 h0 hd
  simp only [Nat.xor_zero, Nat.zero_xor] at d3
  rw [d1, d2, d3, colComp3_a a ha, colComp3_b b hb, colComp3_c c hc, colComp3_d d hd]
  simp

/-! ### S-box and byte-table lemmas -/

theorem wordByte_lt (w r : Nat) : wordByte w r < 256 := Nat.mod_lt _ (by norm_num)

theorem sBoxAt_lt (b : Nat) : sBoxAt b < 256 := Nat.mod_lt _ (by norm_num)

theorem gmulAux_lt (n : Nat) : ∀ a b acc, a < 256 → acc < 256 → gmulAux n a b acc < 256 := by
  induction n with
  | zero =>
    intro a b acc _ hacc
    simpa [gmulAux] using hacc
  | succ n ih =>
    intro a b acc ha hacc
    simp only [gmulAux]
    apply ih
    · exact xtime_lt a
    · split
      · exact xor_lt256 hacc ha
      · exact hacc

theorem gmul_lt (a b : Nat) : gmul a b < 256 :=
  gmulAux_lt 8 _ _ _ (Nat.mod_lt _ (by norm_num)) (by norm_num)

theorem gInv_lt (a : Nat) : gInv a < 256 := by
  unfold gInv
  exact gmul_lt _ _

theorem rsBoxAt_lt (b : Nat) : rsBoxAt b < 256 := by
  unfold rsBoxAt
  exact gInv_lt _

theorem rsbox_sbox : ∀ b, b < 256 → rsBoxAt (sBoxAt b) = b := by decide

/-! ### 16-byte state lemmas -/

theorem list16_cases {s : List Nat} (h : s.length = 16) :
    ∃ a0 a1 a2 a3 a4 a5 a6 a7 a8 a9 a10 a11 a12 a13 a14 a15,
      s = [a0, a1, a2, a3, a4, a5, a6, a7, a8, a9, a10, a11, a12, a13, a14, a15] := by
  rcases s with _ | ⟨a0, s⟩
  · simp at h
  rcases s with _ | ⟨a1, s⟩
  · simp at h
  rcases s with _ | ⟨a2, s⟩
  · simp at h
  rcases s with _ | ⟨a3, s⟩
  · simp at h
  rcases s with _ | ⟨a4, s⟩
  · simp at h
  rcases s with _ | ⟨a5, s⟩
  · simp at h
  rcases s with _ | ⟨a6, s⟩
  · simp at h
  rcases s with _ | ⟨a7, s⟩
  · simp at h
  rcases s with _ | ⟨a8, s⟩
  · simp at h
  rcases s with _ | ⟨a9, s⟩
  · simp at h
  rcases s with _ | ⟨a10, s⟩
  · simp at h
  rcases s with _ | ⟨a11, s⟩
  · simp at h
  rcases s with _ | ⟨a12, s⟩
  · simp at h
  rcases s with _ | ⟨a13, s⟩
  · simp at h
  rcases s with _ | ⟨a14, s⟩
  · simp at h
  rcases s with _ | ⟨a15, s⟩
  · simp at h
  rcases s with _ | ⟨a16, s⟩
  · exact ⟨a0, a1, a2, a3, a4, a5, a6, a7, a8, a9, a10, a11, a12, a13, a14, a15, rfl⟩
  · simp only [List.length_cons, List.length_nil] at h
    omega

theorem sub_block_len (s : List Nat) : (sub_block s).length = s.length := by
  unfold sub_block
  exact List.length_map s sBoxAt

theorem inv_sub_block_len (s : List Nat) : (inv_sub_block s).length = s.length := by
  unfold inv_sub_block
  exact List.length_map s rsBoxAt

theorem shift_rows_len {s : List Nat} (h : s.length = 16) : (shift_rows s).length = 16 := by
  obtain ⟨a0, a1, a2, a3, a4, a5, a6, a7, a8, a9, a10, a11, a12, a13, a14, a15, rfl⟩ :=
    list16_cases h
  rfl

theorem inv_shift_rows_len {s : List Nat} (h : s.length = 16) :
    (inv_shift_rows s).length = 16 := by
  obtain ⟨a0, a1, a2, a3, a4, a5, a6, a7, a8, a9, a10, a11, a12, a13, a14, a15, rfl⟩ :=
    list16_cases h
  rfl

theorem mix_columns_len {s : List Nat} (h : s.length = 16) : (mix_columns s).length = 16 := by
  obtain ⟨a0, a1, a2, a3, a4, a5, a6, a7, a8, a9, a10, a11, a12, a13, a14, a15, rfl⟩ :=
    list16_cases h
  rfl

theorem inv_mix_columns_len {s : List Nat} (h : s.length = 16) :
    (inv_mix_columns s).length = 16 := by
  obtain ⟨a0, a1, a2, a3, a4, a5, a6, a7, a8, a9, a10, a11, a12, a13, a14, a15, rfl⟩ :=
    list16_cases h
  rfl

theorem add_round_key_len {s : List Nat} (ks : List Nat) (r : Nat) (h : s.length = 16) :
    (add_round_key s ks r).length = 16 := by
  obtain ⟨a0, a1, a2, a3, a4, a5, a6, a7, a8, a9, a10, a11, a12, a13, a14, a15, rfl⟩ :=
    list16_cases h
  rfl

theorem sub_block_lt (s : List Nat) : ∀ x ∈ sub_block s, x < 256 := by
  intro x hx
  unfold sub_block at hx
  obtain ⟨a, _, rfl⟩ := List.mem_map.mp hx
  exact sBoxAt_lt a

theorem inv_sub_block_lt (s : List Nat) : ∀ x ∈ inv_sub_block s, x < 256 := by
  intro x hx
  unfold inv_sub_block at hx
  obtain ⟨a, _, rfl⟩ := List.mem_map.mp hx
  exact rsBoxAt_lt a

theorem mix_columns_lt {s : List Nat} (h : s.length = 16) : ∀ x ∈ mix_columns s, x < 256 := by
  obtain ⟨a0, a1, a2, a3, a4, a5, a6, a7, a8, a9, a10, a11, a12, a13, a14, a15, rfl⟩ :=
    list16_cases h
  intro x hx
  simp only [mix_columns, List.mem_cons, List.not_mem_nil, or_false] at hx
  rcases hx with rfl | rfl | rfl | rfl | rfl | rfl | rfl | rfl | rfl | rfl | rfl | rfl | rfl | rfl | rfl | rfl <;>
    first
      | exact mixCol0_lt _ _ _ _
      | exact mixCol1_lt _ _ _ _
      | exact mixCol2_lt _ _ _ _
      | exact mixCol3_lt _ _ _ _

theorem shift_rows_lt {s : List Nat} (h : s.length = 16) (hb : ∀ x ∈ s, x < 256) :
    ∀ x ∈ shift_rows s, x < 256 := by
  obtain ⟨a0, a1, a2, a3, a4, a5, a6, a7, a8, a9, a10, a11, a12, a13, a14, a15, rfl⟩ :=
    list16_cases h
  intro x hx
  simp only [shift_rows, List.mem_cons, List.not_mem_nil, or_false] at hx
  rcases hx with rfl | rfl | rfl | rfl | rfl | rfl | rfl | rfl | rfl | rfl | rfl | rfl | rfl | rfl | rfl | rfl <;>
    exact hb _ (by simp)

theorem add_round_key_lt {s : List Nat} (ks : List Nat) (r : Nat) (h : s.length = 16)
    (hb : ∀ x ∈ s, x < 256) : ∀ x ∈ add_round_key s ks r, x < 256 := by
  obtain ⟨a0, a1, a2, a3, a4, a5, a6, a7, a8, a9, a10, a11, a12, a13, a14, a15, rfl⟩ :=
    list16_cases h
  intro x hx
  simp only [add_round_key, List.mem_cons, List.not_mem_nil, or_false] at hx
  rcases hx with rfl | rfl | rfl | rfl | rfl | rfl | rfl | rfl | rfl | rfl | rfl | rfl | rfl | rfl | rfl | rfl <;>
    exact xor_lt256 (hb _ (by simp)) (wordByte_lt _ _)

theorem inv_shift_shift {s : List Nat} (h : s.length = 16) :
    inv_shift_rows (shift_rows s) = s := by
  obtain ⟨a0, a1, a2, a3, a4, a5, a6, a7, a8, a9, a10, a11, a12, a13, a14, a15, rfl⟩ :=
    list16_cases h
  rfl

theorem inv_sub_sub {s : List Nat} (hb : ∀ x ∈ s, x < 256) :
    inv_sub_block (sub_block s) = s := by
  unfold inv_sub_block sub_block
  rw [List.map_map]
  have hcong : ∀ a ∈ s, (rsBoxAt ∘ sBoxAt) a = id a := fun a ha => rsbox_sbox a (hb a ha)
  rw [List.map_congr_left hcong, List.map_id]

theorem ark_ark {s : List Nat} (ks : List Nat) (r : Nat) (h : s.length = 16) :
    add_round_key (add_round_key s ks r) ks r = s := by
  obtain ⟨a0, a1, a2, a3, a4, a5, a6, a7, a8, a9, a10, a11, a12, a13, a14, a15, rfl⟩ :=
    list16_cases h
  simp only [add_round_key, xor_cancel2]

theorem inv_mix_mix {s : List Nat} (h : s.length = 16) (hb : ∀ x ∈ s, x < 256) :
    inv_mix_columns (mix_columns s) = s := by
  obtain ⟨a0, a1, a2, a3, a4, a5, a6, a7, a8, a9, a10, a11, a12, a13, a14, a15, rfl⟩ :=
    list16_cases h
  have h0 : a0 < 256 := hb _ (by simp)
  have h1 : a1 < 256 := hb _ (by simp)
  have h2 : a2 < 256 := hb _ (by simp)
  have h3 : a3 < 256 := hb _ (by simp)
  have h4 : a4 < 256 := hb _ (by simp)
  have h5 : a5 < 256 := hb _ (by simp)
  have h6 : a6 < 256 := hb _ (by simp)
  have h7 : a7 < 256 := hb _ (by simp)
  have h8 : a8 < 256 := hb _ (by simp)
  have h9 : a9 < 256 := hb _ (by simp)
  have h10 : a10 < 256 := hb _ (by simp)
  have h11 : a11 < 256 := hb _ (by simp)
  have h12 : a12 < 256 := hb _ (by simp)
  have h13 : a13 < 256 := hb _ (by simp)
  have h14 : a14 < 256 := hb _ (by simp)
  have h15 : a15 < 256 := hb _ (by simp)
  simp only [mix_columns, inv_mix_columns]
  rw [colInv0 h0 h1 h2 h3, colInv1 h0 h1 h2 h3, colInv2 h0 h1 h2 h3, colInv3 h0 h1 h2 h3,
    colInv0 h4 h5 h6 h7, colInv1 h4 h5 h6 h7, colInv2 h4 h5 h6 h7, colInv3 h4 h5 h6 h7,
    colInv0 h8 h9 h10 h11, colInv1 h8 h9 h10 h11, colInv2 h8 h9 h10 h11, colInv3 h8 h9 h10 h11,
    colInv0 h12 h13 h14 h15, colInv1 h12 h13 h14 h15, colInv2 h12 h13 h14 h15,
    colInv3 h12 h13 h14 h15]

/-! ### Cipher-level lemmas -/

theorem fwd_foldl (ks s : List Nat) (n : Nat) :
    (List.range' 1 n).foldl
      (fun s round => add_round_key (mix_columns (shift_rows (sub_block s))) ks round) s =
      fwdRounds ks s n := by
  induction n with
  | zero => rfl
  | succ n ih =>
    rw [List.range'_concat, List.foldl_append, ih]
    simp only [List.foldl_cons, List.foldl_nil, fwdRounds]
    have e : 1 + 1 * n = n + 1 := by ring
    rw [e]

theorem inv_foldl (ks : List Nat) (n : Nat) : ∀ s : List Nat,
    ((List.range' 1 n).reverse).foldl
      (fun s round => inv_mix_columns (add_round_key (inv_sub_block (inv_shift_rows s)) ks round)) s =
      invRounds ks s n := by
  induction n with
  | zero => intro s; rfl
  | succ n ih =>
    intro s
    rw [List.range'_concat, List.reverse_append]
    simp only [List.reverse_cons, List.reverse_nil, List.nil_append, List.cons_append,
      List.foldl_cons]
    rw [ih]
    simp only [invRounds]
    have e : 1 + 1 * n = n + 1 := by ring
    rw [e]

theorem fwdRounds_len (ks : List Nat) {s : List Nat} (h : s.length = 16) :
    ∀ n, (fwdRounds ks s n).length = 16 := by
  intro n
  induction n with
  | zero => exact h
  | succ n ih =>
    simp only [fwdRounds]
    apply add_round_key_len
    apply mix_columns_len
    apply shift_rows_len
    rw [sub_block_len]
    exact ih

theorem fwdRounds_lt (ks : List Nat) {s : List Nat} (h : s.length = 16)
    (hb : ∀ x ∈ s, x < 256) : ∀ n, ∀ x ∈ fwdRounds ks s n, x < 256 := by
  intro n
  induction n with
  | zero => exact hb
  | succ n ih =>
    simp only [fwdRounds]
    apply add_round_key_lt
    · apply mix_columns_len
      apply shift_rows_len
      rw [sub_block_len]
      exact fwdRounds_len ks h n
    · apply mix_columns_lt
      apply shift_rows_len
      rw [sub_block_len]
      exact fwdRounds_len ks h n

theorem rounds_inv (ks : List Nat) : ∀ n (s : List Nat), s.length = 16 →
    (∀ x ∈ s, x < 256) →
    invRounds ks (shift_rows (sub_block (fwdRounds ks s n))) n = shift_rows (sub_block s) := by
  intro n
  induction n with
  | zero =>
    intro s _ _
    rfl
  | succ n ih =>
    intro s h hb
    have hFlen : (fwdRounds ks s n).length = 16 := fwdRounds_len ks h n
    have hsubF_len : (sub_block (fwdRounds ks s n)).length = 16 := by
      rw [sub_block_len, hFlen]
    have hshift_len : (shift_rows (sub_block (fwdRounds ks s n))).length = 16 :=
      shift_rows_len hsubF_len
    have hmix_len :
        (mix_columns (shift_rows (sub_block (fwdRounds ks s n)))).length = 16 :=
      mix_columns_len hshift_len
    have hark_len :
        (add_round_key (mix_columns (shift_rows (sub_block (fwdRounds ks s n)))) ks
          (n + 1)).length = 16 := add_round_key_len _ _ hmix_len
    have hark_lt := add_round_key_lt ks (n + 1) hmix_len (mix_columns_lt hshift_len)
    simp only [fwdRounds, invRounds]
    rw [inv_shift_shift (by rw [sub_block_len, hark_len])]
    rw [inv_sub_sub hark_lt]
    rw [ark_ark _ _ hmix_len]
    rw [inv_mix_mix hshift_len (shift_rows_lt hsubF_len (sub_block_lt _))]
    exact ih s h hb

theorem cipher_inv {b : List Nat} (ks : List Nat) (Nr : Nat)
    (h : b.length = 16) (hb : ∀ x ∈ b, x < 256) :
    uaes_inverse_cipher (uaes_foward_cipher b ks Nr) ks Nr = b := by
  simp only [uaes_foward_cipher, uaes_inverse_cipher]
  rw [fwd_foldl, inv_foldl]
  have h0len : (add_round_key b ks 0).length = 16 := add_round_key_len _ _ h
  have h0lt := add_round_key_lt ks 0 h hb
  have hsublen : (sub_block (fwdRounds ks (add_round_key b ks 0) (Nr - 1))).length = 16 := by
    rw [sub_block_len]
    exact fwdRounds_len ks h0len (Nr - 1)
  rw [ark_ark _ _ (shift_rows_len hsublen)]
  rw [rounds_inv ks (Nr - 1) _ h0len h0lt]
  rw [inv_shift_shift (by rw [sub_block_len, h0len])]
  rw [inv_sub_sub h0lt]
  rw [ark_ark _ _ h]

theorem fwd_cipher_len {b : List Nat} (ks : List Nat) (Nr : Nat) (h : b.length = 16) :
    (uaes_foward_cipher b ks Nr).length = 16 := by
  simp only [uaes_foward_cipher]
  rw [fwd_foldl]
  apply add_round_key_len
  apply shift_rows_len
  rw [sub_block_len]
  exact fwdRounds_len ks (add_round_key_len _ _ h) (Nr - 1)

theorem fwd_cipher_lt {b : List Nat} (ks : List Nat) (Nr : Nat) (h : b.length = 16)
    (hb : ∀ x ∈ b, x < 256) : ∀ x ∈ uaes_foward_cipher b ks Nr, x < 256 := by
  simp only [uaes_foward_cipher]
  rw [fwd_foldl]
  apply add_round_key_lt
  · apply shift_rows_len
    rw [sub_block_len]
    exact fwdRounds_len ks (add_round_key_len _ _ h) (Nr - 1)
  · apply shift_rows_lt
    · rw [sub_block_len]
      exact fwdRounds_len ks (add_round_key_len _ _ h) (Nr - 1)
    · exact sub_block_lt _

/-! ### Buffer block lemmas -/

theorem getBlock_getElem? (buf : List Nat) (idx k : Nat) :
    (getBlock buf idx)[k]? = if k < 16 then buf[16 * idx + k]? else none := by
  unfold getBlock
  rw [List.getElem?_take, List.getElem?_drop]

theorem setBlock_getElem? {buf b : List Nat} {idx : Nat} (hb : b.length = 16)
    (h : 16 * idx + 16 ≤ buf.length) (j : Nat) :
    (setBlock buf idx b)[j]? =
      if 16 * idx ≤ j ∧ j < 16 * idx + 16 then b[j - 16 * idx]? else buf[j]? := by
  unfold setBlock
  have hA : (buf.take (16 * idx)).length = 16 * idx := by
    simp only [List.length_take]
    omega
  rw [List.getElem?_append, List.getElem?_append, List.getElem?_take, List.getElem?_drop]
  simp only [List.length_append, hA, hb]
  by_cases h1 : j < 16 * idx
  · rw [if_pos (show j < 16 * idx + 16 by omega), if_pos h1, if_pos h1, if_neg (by omega)]
  · by_cases h2 : j < 16 * idx + 16
    · rw [if_pos h2, if_neg h1, if_pos (by omega)]
    · rw [if_neg h2, if_neg (by omega)]
      congr 1
      omega

theorem getBlock_len {buf : List Nat} {idx : Nat} (h : 16 * idx + 16 ≤ buf.length) :
    (getBlock buf idx).length = 16 := by
  unfold getBlock
  simp only [List.length_take, List.length_drop]
  omega

theorem getBlock_lt {buf : List Nat} (idx : Nat) (hb : ∀ x ∈ buf, x < 256) :
    ∀ x ∈ getBlock buf idx, x < 256 := by
  intro x hx
  unfold getBlock at hx
  exact hb x (List.mem_of_mem_drop (List.mem_of_mem_take hx))

theorem setBlock_len {buf b : List Nat} {idx : Nat} (hb : b.length = 16)
    (h : 16 * idx + 16 ≤ buf.length) : (setBlock buf idx b).length = buf.length := by
  unfold setBlock
  simp only [List.length_append, List.length_take, List.length_drop]
  omega

theorem setBlock_lt {buf b : List Nat} (idx : Nat) (hbuf : ∀ x ∈ buf, x < 256)
    (hb : ∀ x ∈ b, x < 256) : ∀ x ∈ setBlock buf idx b, x < 256 := by
  intro x hx
  unfold setBlock at hx
  rcases List.mem_append.mp hx with hx1 | hx2
  · rcases List.mem_append.mp hx1 with hx3 | hx4
    · exact hbuf x (List.mem_of_mem_take hx3)
    · exact hb x hx4
  · exact hbuf x (List.mem_of_mem_drop hx2)

theorem getBlock_setBlock_same {buf b : List Nat} {idx : Nat} (hb : b.length = 16)
    (h : 16 * idx + 16 ≤ buf.length) : getBlock (setBlock buf idx b) idx = b := by
  apply List.ext_getElem?
  intro k
  rw [getBlock_getElem?, setBlock_getElem? hb h]
  by_cases hk : k < 16
  · rw [if_pos hk, if_pos (by omega)]
    congr 1
    omega
  · rw [if_neg hk]
    exact (List.getElem?_eq_none (by omega)).symm

theorem getBlock_setBlock_ne {buf b : List Nat} {idx j : Nat} (hb : b.length = 16)
    (h : 16 * idx + 16 ≤ buf.length) (hne : j ≠ idx) :
    getBlock (setBlock buf idx b) j = getBlock buf j := by
  apply List.ext_getElem?
  intro k
  rw [getBlock_getElem?, getBlock_getElem?, setBlock_getElem? hb h]
  by_cases hk : k < 16
  · rw [if_pos hk, if_pos hk, if_neg (by omega)]
  · rw [if_neg hk, if_neg hk]

theorem setBlock_getElem_out {buf b : List Nat} {idx : Nat} (hb : b.length = 16)
    (h : 16 * idx + 16 ≤ buf.length) {j : Nat} (hj : j < 16 * idx ∨ 16 * idx + 16 ≤ j) :
    (setBlock buf idx b)[j]? = buf[j]? := by
  rw [setBlock_getElem? hb h, if_neg (by omega)]

/-! ### XOR-of-blocks lemmas -/

theorem zip_xor_len (a b : List Nat) :
    (uaes_xor_iv a b).1.length = min a.length b.length := by
  simp [uaes_xor_iv, List.length_zipWith]

theorem zip_xor_lt (a b : List Nat) (ha : ∀ x ∈ a, x < 256) (hb : ∀ x ∈ b, x < 256) :
    ∀ x ∈ (uaes_xor_iv a b).1, x < 256 := by
  unfold uaes_xor_iv
  induction a generalizing b with
  | nil => intro x hx; simp at hx
  | cons y ys ih =>
    intro x hx
    cases b with
    | nil => simp at hx
    | cons z zs =>
      simp only [List.zipWith_cons_cons, List.mem_cons] at hx
      rcases hx with rfl | hx
      · exact xor_lt256 (ha _ (by simp)) (hb _ (by simp))
      · exact ih zs (fun u hu => ha u (List.mem_cons_of_mem y hu))
          (fun u hu => hb u (List.mem_cons_of_mem z hu)) x hx

theorem zip_xor_cancel : ∀ (a b : List Nat), a.length = b.length →
    (uaes_xor_iv (uaes_xor_iv a b).1 b).1 = a := by
  unfold uaes_xor_iv
  intro a
  induction a with
  | nil => intro b h; simp
  | cons x xs ih =>
    intro b h
    cases b with
    | nil => simp at h
    | cons y ys =>
      simp only [List.zipWith_cons_cons, xor_cancel2, List.cons.injEq, true_and]
      exact ih ys (by simpa using h)

/-! ### Generic block-walk lemmas (the ECB loop shape) -/

theorem blocks_ext {n : Nat} {x y : List Nat} (hx : x.length = 16 * n)
    (hy : y.length = 16 * n) (h : ∀ j, j < n → getBlock x j = getBlock y j) : x = y := by
  apply List.ext_getElem?
  intro m
  by_cases hm : m < 16 * n
  · have hj : m / 16 < n := by omega
    have := congrArg (fun l => l[m % 16]?) (h (m / 16) hj)
    simp only [getBlock_getElem?] at this
    rw [if_pos (show m % 16 < 16 by omega), if_pos (show m % 16 < 16 by omega)] at this
    have e : 16 * (m / 16) + m % 16 = m := by omega
    rw [e] at this
    exact this
  · rw [List.getElem?_eq_none (by omega), List.getElem?_eq_none (by omega)]

theorem walk_spec (f : List Nat → List Nat)
    (hflen : ∀ b : List Nat, b.length = 16 → (f b).length = 16) :
    ∀ (n : Nat) (p : List Nat), 16 * n ≤ p.length →
      (((List.range n).foldl (fun b idx => setBlock b idx (f (getBlock b idx))) p).length =
          p.length ∧
        ∀ j, getBlock ((List.range n).foldl
            (fun b idx => setBlock b idx (f (getBlock b idx))) p) j =
          if j < n then f (getBlock p j) else getBlock p j) := by
  intro n
  induction n with
  | zero =>
    intro p _
    constructor
    · rfl
    · intro j
      rw [if_neg (by omega)]
      rfl
  | succ n ih =>
    intro p hlen
    have hlen' : 16 * n ≤ p.length := by omega
    obtain ⟨ihlen, ihget⟩ := ih p hlen'
    rw [List.range_succ, List.foldl_append]
    simp only [List.foldl_cons, List.foldl_nil]
    have hn16 : 16 * n + 16 ≤ p.length := by omega
    have hLn16 : 16 * n + 16 ≤
        ((List.range n).foldl (fun b idx => setBlock b idx (f (getBlock b idx))) p).length := by
      rw [ihlen]
      omega
    have hgn : getBlock ((List.range n).foldl
        (fun b idx => setBlock b idx (f (getBlock b idx))) p) n = getBlock p n := by
      rw [ihget n, if_neg (by omega)]
    have hfb : (f (getBlock ((List.range n).foldl
        (fun b idx => setBlock b idx (f (getBlock b idx))) p) n)).length = 16 := by
      rw [hgn]
      exact hflen _ (getBlock_len hn16)
    constructor
    · rw [setBlock_len hfb hLn16, ihlen]
    · intro j
      by_cases hj : j = n
      · subst hj
        rw [getBlock_setBlock_same hfb hLn16, hgn, if_pos (by omega)]
      · rw [getBlock_setBlock_ne hfb hLn16 hj, ihget j]
        by_cases hj2 : j < n
        · rw [if_pos hj2, if_pos (by omega)]
        · rw [if_neg hj2, if_neg (by omega)]

theorem walk_frame (f : List Nat → List Nat)
    (hflen : ∀ b : List Nat, b.length = 16 → (f b).length = 16) :
    ∀ (n : Nat) (p : List Nat), 16 * n ≤ p.length → ∀ j, 16 * n ≤ j →
      ((List.range n).foldl (fun b idx => setBlock b idx (f (getBlock b idx))) p)[j]? =
        p[j]? := by
  intro n
  induction n with
  | zero =>
    intro p _ j _
    rfl
  | succ n ih =>
    intro p hlen j hj
    rw [List.range_succ, List.foldl_append]
    simp only [List.foldl_cons, List.foldl_nil]
    have hlen' : 16 * n ≤ p.length := by omega
    obtain ⟨ihlen, ihget⟩ := walk_spec f hflen n p hlen'
    have hn16 : 16 * n + 16 ≤ p.length := by omega
    have hLn16 : 16 * n + 16 ≤
        ((List.range n).foldl (fun b idx => setBlock b idx (f (getBlock b idx))) p).length := by
      rw [ihlen]
      omega
    have hgn : getBlock ((List.range n).foldl
        (fun b idx => setBlock b idx (f (getBlock b idx))) p) n = getBlock p n := by
      rw [ihget n, if_neg (by omega)]
    have hfb : (f (getBlock ((List.range n).foldl
        (fun b idx => setBlock b idx (f (getBlock b idx))) p) n)).length = 16 := by
      rw [hgn]
      exact hflen _ (getBlock_len hn16)
    rw [setBlock_getElem_out hfb hLn16 (Or.inr (by omega))]
    exact ih p hlen' j (by omega)

/-! ### CBC chain lemmas -/

theorem cbcChain_len {ks : List Nat} {Nr : Nat} {p iv : List Nat} (hiv : iv.length = 16) :
    ∀ j, 16 * j + 16 ≤ p.length → (cbcChain ks Nr p iv j).length = 16 := by
  intro j
  induction j with
  | zero =>
    intro h
    simp only [cbcChain]
    apply fwd_cipher_len
    rw [zip_xor_len, getBlock_len h, hiv]
    simp
  | succ j ih =>
    intro h
    simp only [cbcChain]
    apply fwd_cipher_len
    rw [zip_xor_len, getBlock_len h, ih (by omega)]
    simp

theorem cbcChain_lt {ks : List Nat} {Nr : Nat} {p iv : List Nat} (hiv : iv.length = 16)
    (hivb : ∀ x ∈ iv, x < 256) (hp : ∀ x ∈ p, x < 256) :
    ∀ j, 16 * j + 16 ≤ p.length → ∀ x ∈ cbcChain ks Nr p iv j, x < 256 := by
  intro j
  induction j with
  | zero =>
    intro h
    simp only [cbcChain]
    apply fwd_cipher_lt
    · rw [zip_xor_len, getBlock_len h, hiv]
      simp
    · exact zip_xor_lt _ _ (getBlock_lt 0 hp) hivb
  | succ j ih =>
    intro h
    simp only [cbcChain]
    apply fwd_cipher_lt
    · rw [zip_xor_len, getBlock_len h, cbcChain_len hiv j (by omega)]
      simp
    · exact zip_xor_lt _ _ (getBlock_lt (j + 1) hp) (ih (by omega))

/-! ### CBC encryption loop characterisation -/

theorem cbcEncLoop_spec (ks : List Nat) (Nr : Nat) (p iv : List Nat) (hiv : iv.length = 16) :
    ∀ (m : Nat) (q : List Nat), q.length = p.length → 16 * (m + 1) ≤ p.length →
      getBlock q 0 = cbcChain ks Nr p iv 0 →
      (∀ j, 1 ≤ j → getBlock q j = getBlock p j) →
      ((cbcEncLoop ks Nr q (m + 1)).length = p.length ∧
        (∀ j, j ≤ m → getBlock (cbcEncLoop ks Nr q (m + 1)) j = cbcChain ks Nr p iv j) ∧
        ∀ j, m < j → getBlock (cbcEncLoop ks Nr q (m + 1)) j = getBlock p j) := by
  intro m
  induction m with
  | zero =>
    intro q hq hlen h0 hrest
    unfold cbcEncLoop
    simp only [Nat.add_sub_cancel, List.range'_zero, List.foldl_nil]
    refine ⟨hq, ?_, ?_⟩
    · intro j hj
      interval_cases j
      exact h0
    · intro j hj
      exact hrest j (by omega)
  | succ m ih =>
    intro q hq hlen h0 hrest
    have hlen' : 16 * (m + 1) ≤ p.length := by omega
    obtain ⟨ihlen, ihchain, ihrest⟩ := ih q hq hlen' h0 hrest
    unfold cbcEncLoop at ihlen ihchain ihrest ⊢
    simp only [Nat.add_sub_cancel] at ihlen ihchain ihrest ⊢
    rw [List.range'_concat, List.foldl_append]
    simp only [List.foldl_cons, List.foldl_nil]
    have e : 1 + 1 * m = m + 1 := by ring
    rw [e]
    simp only [Nat.add_sub_cancel]
    set L := (List.range' 1 m).foldl
      (fun b idx =>
        setBlock (setBlock b idx (uaes_xor_iv (getBlock b idx) (getBlock b (idx - 1))).1) idx
          (uaes_foward_cipher
            (getBlock (setBlock b idx (uaes_xor_iv (getBlock b idx) (getBlock b (idx - 1))).1)
              idx) ks Nr)) q with hL
    have hgm1 : getBlock L (m + 1) = getBlock p (m + 1) := ihrest (m + 1) (by omega)
    have hgm : getBlock L m = cbcChain ks Nr p iv m := ihchain m (by omega)
    have hpb16 : 16 * (m + 1) + 16 ≤ p.length := by omega
    have hxlen : (uaes_xor_iv (getBlock L (m + 1)) (getBlock L m)).1.length = 16 := by
      rw [hgm1, hgm, zip_xor_len, getBlock_len hpb16, cbcChain_len hiv m (by omega)]
      simp
    have hL16 : 16 * (m + 1) + 16 ≤ L.length := by
      rw [ihlen]
      exact hpb16
    have hbxget : getBlock (setBlock L (m + 1)
        (uaes_xor_iv (getBlock L (m + 1)) (getBlock L m)).1) (m + 1) =
        (uaes_xor_iv (getBlock p (m + 1)) (cbcChain ks Nr p iv m)).1 := by
      rw [getBlock_setBlock_same hxlen hL16, hgm1, hgm]
    have hbxlen : (setBlock L (m + 1)
        (uaes_xor_iv (getBlock L (m + 1)) (getBlock L m)).1).length = p.length := by
      rw [setBlock_len hxlen hL16, ihlen]
    have hfwdlen : (uaes_foward_cipher (getBlock (setBlock L (m + 1)
        (uaes_xor_iv (getBlock L (m + 1)) (getBlock L m)).1) (m + 1)) ks Nr).length = 16 := by
      apply fwd_cipher_len
      rw [hbxget, zip_xor_len, getBlock_len hpb16, cbcChain_len hiv m (by omega)]
      simp
    have hbxL16 : 16 * (m + 1) + 16 ≤ (setBlock L (m + 1)
        (uaes_xor_iv (getBlock L (m + 1)) (getBlock L m)).1).length := by
      rw [hbxlen]
      exact hpb16
    refine ⟨?_, ?_, ?_⟩
    · rw [setBlock_len hfwdlen hbxL16, hbxlen]
    · intro j hj
      by_cases hjm : j = m + 1
      · subst hjm
        rw [getBlock_setBlock_same hfwdlen hbxL16, hbxget]
        rfl
      · rw [getBlock_setBlock_ne hfwdlen hbxL16 hjm,
          getBlock_setBlock_ne hxlen hL16 hjm]
        exact ihchain j (by omega)
    · intro j hj
      rw [getBlock_setBlock_ne hfwdlen hbxL16 (by omega),
        getBlock_setBlock_ne hxlen hL16 (by omega)]
      exact ihrest j (by omega)

/-! ### Inverse-cipher length -/

theorem invRounds_len (ks : List Nat) : ∀ (n : Nat) (s : List Nat), s.length = 16 →
    (invRounds ks s n).length = 16 := by
  intro n
  induction n with
  | zero =>
    intro s h
    exact h
  | succ n ih =>
    intro s h
    simp only [invRounds]
    apply ih
    apply inv_mix_columns_len
    apply add_round_key_len
    rw [inv_sub_block_len]
    exact inv_shift_rows_len h

theorem inv_cipher_len {b : List Nat} (ks : List Nat) (Nr : Nat) (h : b.length = 16) :
    (uaes_inverse_cipher b ks Nr).length = 16 := by
  simp only [uaes_inverse_cipher]
  rw [inv_foldl]
  apply add_round_key_len
  rw [inv_sub_block_len]
  apply inv_shift_rows_len
  exact invRounds_len ks (Nr - 1) _ (add_round_key_len _ _ h)

/-! ### CBC decryption loop characterisation -/

theorem cbcDecLoop_spec (ks : List Nat) (Nr : Nat) :
    ∀ (m : Nat) (c : List Nat), 16 * m + 16 ≤ c.length →
      ((cbcDecLoop ks Nr c m).length = c.length ∧
        getBlock (cbcDecLoop ks Nr c m) 0 = getBlock c 0 ∧
        (∀ j, 1 ≤ j → j ≤ m → getBlock (cbcDecLoop ks Nr c m) j =
          (uaes_xor_iv (uaes_inverse_cipher (getBlock c j) ks Nr) (getBlock c (j - 1))).1) ∧
        ∀ j, m < j → getBlock (cbcDecLoop ks Nr c m) j = getBlock c j) := by
  intro m
  induction m with
  | zero =>
    intro c _
    refine ⟨rfl, rfl, ?_, ?_⟩
    · intro j hj1 hj2
      omega
    · intro j _
      rfl
  | succ m ih =>
    intro c hlen
    have hc16 : 16 * (m + 1) + 16 ≤ c.length := hlen
    have hinvlen : (uaes_inverse_cipher (getBlock c (m + 1)) ks Nr).length = 16 :=
      inv_cipher_len ks Nr (getBlock_len hc16)
    have hb1len : (setBlock c (m + 1)
        (uaes_inverse_cipher (getBlock c (m + 1)) ks Nr)).length = c.length :=
      setBlock_len hinvlen hc16
    have hb1c16 : 16 * (m + 1) + 16 ≤ (setBlock c (m + 1)
        (uaes_inverse_cipher (getBlock c (m + 1)) ks Nr)).length := by
      rw [hb1len]
      exact hc16
    have hb1get : getBlock (setBlock c (m + 1)
        (uaes_inverse_cipher (getBlock c (m + 1)) ks Nr)) (m + 1) =
        uaes_inverse_cipher (getBlock c (m + 1)) ks Nr :=
      getBlock_setBlock_same hinvlen hc16
    have hb1getm : getBlock (setBlock c (m + 1)
        (uaes_inverse_cipher (getBlock c (m + 1)) ks Nr)) m = getBlock c m :=
      getBlock_setBlock_ne hinvlen hc16 (by omega)
    have hxlen : ((uaes_xor_iv (getBlock (setBlock c (m + 1)
        (uaes_inverse_cipher (getBlock c (m + 1)) ks Nr)) (m + 1))
        (getBlock (setBlock c (m + 1)
          (uaes_inverse_cipher (getBlock c (m + 1)) ks Nr)) m)).1).length = 16 := by
      rw [hb1get, hb1getm, zip_xor_len, hinvlen, getBlock_len (by omega)]
      simp
    have hb2len : (setBlock (setBlock c (m + 1)
        (uaes_inverse_cipher (getBlock c (m + 1)) ks Nr)) (m + 1)
        ((uaes_xor_iv (getBlock (setBlock c (m + 1)
          (uaes_inverse_cipher (getBlock c (m + 1)) ks Nr)) (m + 1))
          (getBlock (setBlock c (m + 1)
            (uaes_inverse_cipher (getBlock c (m + 1)) ks Nr)) m)).1)).length = c.length := by
      rw [setBlock_len hxlen hb1c16, hb1len]
    obtain ⟨ihlen, ih0, ihmid, ihrest⟩ := ih (setBlock (setBlock c (m + 1)
        (uaes_inverse_cipher (getBlock c (m + 1)) ks Nr)) (m + 1)
        ((uaes_xor_iv (getBlock (setBlock c (m + 1)
          (uaes_inverse_cipher (getBlock c (m + 1)) ks Nr)) (m + 1))
          (getBlock (setBlock c (m + 1)
            (uaes_inverse_cipher (getBlock c (m + 1)) ks Nr)) m)).1))
      (by rw [hb2len]; omega)
    have hb2blocks : ∀ j, j ≠ m + 1 → getBlock (setBlock (setBlock c (m + 1)
        (uaes_inverse_cipher (getBlock c (m + 1)) ks Nr)) (m + 1)
        ((uaes_xor_iv (getBlock (setBlock c (m + 1)
          (uaes_inverse_cipher (getBlock c (m + 1)) ks Nr)) (m + 1))
          (getBlock (setBlock c (m + 1)
            (uaes_inverse_cipher (getBlock c (m + 1)) ks Nr)) m)).1)) j = getBlock c j := by
      intro j hj
      rw [getBlock_setBlock_ne hxlen hb1c16 hj, getBlock_setBlock_ne hinvlen hc16 hj]
    have hb2top : getBlock (setBlock (setBlock c (m + 1)
        (uaes_inverse_cipher (getBlock c (m + 1)) ks Nr)) (m + 1)
        ((uaes_xor_iv (getBlock (setBlock c (m + 1)
          (uaes_inverse_cipher (getBlock c (m + 1)) ks Nr)) (m + 1))
          (getBlock (setBlock c (m + 1)
            (uaes_inverse_cipher (getBlock c (m + 1)) ks Nr)) m)).1)) (m + 1) =
        (uaes_xor_iv (uaes_inverse_cipher (getBlock c (m + 1)) ks Nr) (getBlock c m)).1 := by
      rw [getBlock_setBlock_same hxlen hb1c16, hb1get, hb1getm]
    simp only [cbcDecLoop]
    refine ⟨?_, ?_, ?_, ?_⟩
    · rw [ihlen, hb2len]
    · rw [ih0, hb2blocks 0 (by omega)]
    · intro j hj1 hj2
      by_cases hjm : j = m + 1
      · subst hjm
        rw [ihrest (m + 1) (by omega), hb2top]
        simp only [Nat.add_sub_cancel]
      · have hjle : j ≤ m := by omega
        rw [ihmid j hj1 hjle, hb2blocks j (by omega), hb2blocks (j - 1) (by omega)]
    · intro j hj
      rw [ihrest j (by omega), hb2blocks j (by omega)]

/-! ### CBC loop frame lemmas -/

theorem cbcEncLoop_frame (ks : List Nat) (Nr : Nat) :
    ∀ (m : Nat) (q : List Nat), 16 * m + 16 ≤ q.length →
      ((cbcEncLoop ks Nr q (m + 1)).length = q.length ∧
        ∀ j, 16 * (m + 1) ≤ j → (cbcEncLoop ks Nr q (m + 1))[j]? = q[j]?) := by
  intro m
  induction m with
  | zero =>
    intro q _
    unfold cbcEncLoop
    simp
  | succ m ih =>
    intro q hlen
    obtain ⟨ihlen, ihframe⟩ := ih q (by omega)
    unfold cbcEncLoop at ihlen ihframe ⊢
    simp only [Nat.add_sub_cancel] at ihlen ihframe ⊢
    rw [List.range'_concat, List.foldl_append]
    simp only [List.foldl_cons, List.foldl_nil]
    have e : 1 + 1 * m = m + 1 := by ring
    rw [e]
    simp only [Nat.add_sub_cancel]
    set L := (List.range' 1 m).foldl
      (fun b idx =>
        setBlock (setBlock b idx (uaes_xor_iv (getBlock b idx) (getBlock b (idx - 1))).1) idx
          (uaes_foward_cipher
            (getBlock (setBlock b idx (uaes_xor_iv (getBlock b idx) (getBlock b (idx - 1))).1)
              idx) ks Nr)) q with hL
    have hL16 : 16 * (m + 1) + 16 ≤ L.length := by
      rw [ihlen]
      omega
    have hxlen : (uaes_xor_iv (getBlock L (m + 1)) (getBlock L m)).1.length = 16 := by
      rw [zip_xor_len, getBlock_len hL16, getBlock_len (by omega)]
      simp
    have hbxL16 : 16 * (m + 1) + 16 ≤ (setBlock L (m + 1)
        (uaes_xor_iv (getBlock L (m + 1)) (getBlock L m)).1).length := by
      rw [setBlock_len hxlen hL16]
      exact hL16
    have hfwdlen : (uaes_foward_cipher (getBlock (setBlock L (m + 1)
        (uaes_xor_iv (getBlock L (m + 1)) (getBlock L m)).1) (m + 1)) ks Nr).length = 16 := by
      apply fwd_cipher_len
      rw [getBlock_setBlock_same hxlen hL16]
      exact hxlen
    constructor
    · rw [setBlock_len hfwdlen hbxL16, setBlock_len hxlen hL16, ihlen]
    · intro j hj
      rw [setBlock_getElem_out hfwdlen hbxL16 (Or.inr (by omega)),
        setBlock_getElem_out hxlen hL16 (Or.inr (by omega))]
      exact ihframe j (by omega)

theorem cbcDecLoop_frame (ks : List Nat) (Nr : Nat) :
    ∀ (m : Nat) (ct : List Nat), 16 * m + 16 ≤ ct.length →
      ∀ j, 16 * m + 16 ≤ j → ((cbcDecLoop ks Nr ct m)[j]? = ct[j]?) := by
  intro m
  induction m with
  | zero =>
    intro ct _ j _
    rfl
  | succ m ih =>
    intro ct hlen j hj
    have hc16 : 16 * (m + 1) + 16 ≤ ct.length := hlen
    have hinvlen : (uaes_inverse_cipher (getBlock ct (m + 1)) ks Nr).length = 16 :=
      inv_cipher_len ks Nr (getBlock_len hc16)
    have hb1len : (setBlock ct (m + 1)
        (uaes_inverse_cipher (getBlock ct (m + 1)) ks Nr)).length = ct.length :=
      setBlock_len hinvlen hc16
    have hb1c16 : 16 * (m + 1) + 16 ≤ (setBlock ct (m + 1)
        (uaes_inverse_cipher (getBlock ct (m + 1)) ks Nr)).length := by
      rw [hb1len]
      exact hc16
    have hxlen : ((uaes_xor_iv (getBlock (setBlock ct (m + 1)
        (uaes_inverse_cipher (getBlock ct (m + 1)) ks Nr)) (m + 1))
        (getBlock (setBlock ct (m + 1)
          (uaes_inverse_cipher (getBlock ct (m + 1)) ks Nr)) m)).1).length = 16 := by
      rw [getBlock_setBlock_same hinvlen hc16,
        getBlock_setBlock_ne hinvlen hc16 (by omega), zip_xor_len, hinvlen,
        getBlock_len (by omega)]
      simp
    simp only [cbcDecLoop]
    rw [ih _ (by rw [setBlock_len hxlen hb1c16, hb1len]; omega) j (by omega)]
    rw [setBlock_getElem_out hxlen hb1c16 (Or.inr (by omega)),
      setBlock_getElem_out hinvlen hc16 (Or.inr (by omega))]

/-! ### Driver-level helper lemmas -/

theorem offsetOf_eq {size : Nat} (h : size % 16 = 0) : 16 * offsetOf size = size := by
  unfold offsetOf
  rw [if_neg (by omega)]
  omega

theorem cbc_enc_blocks (ks : List Nat) (Nr : Nat) (p iv : List Nat) (m : Nat)
    (hplen : p.length = 16 * (m + 1)) (hiv : iv.length = 16) :
    ((cbcEncLoop ks Nr
        (setBlock (setBlock p 0 (uaes_xor_iv (getBlock p 0) iv).1) 0
          (uaes_foward_cipher
            (getBlock (setBlock p 0 (uaes_xor_iv (getBlock p 0) iv).1) 0) ks Nr))
        (m + 1)).length = p.length ∧
      (∀ j, j ≤ m → getBlock (cbcEncLoop ks Nr
        (setBlock (setBlock p 0 (uaes_xor_iv (getBlock p 0) iv).1) 0
          (uaes_foward_cipher
            (getBlock (setBlock p 0 (uaes_xor_iv (getBlock p 0) iv).1) 0) ks Nr))
        (m + 1)) j = cbcChain ks Nr p iv j)) := by
  have hp016 : 16 * 0 + 16 ≤ p.length := by omega
  have hx1len : (uaes_xor_iv (getBlock p 0) iv).1.length = 16 := by
    rw [zip_xor_len, getBlock_len hp016, hiv]
    simp
  have hp0len : (setBlock p 0 (uaes_xor_iv (getBlock p 0) iv).1).length = p.length :=
    setBlock_len hx1len hp016
  have hg0 : getBlock (setBlock p 0 (uaes_xor_iv (getBlock p 0) iv).1) 0 =
      (uaes_xor_iv (getBlock p 0) iv).1 := getBlock_setBlock_same hx1len hp016
  have hp0c16 : 16 * 0 + 16 ≤ (setBlock p 0 (uaes_xor_iv (getBlock p 0) iv).1).length := by
    rw [hp0len]
    exact hp016
  have hfwdlen : (uaes_foward_cipher
      (getBlock (setBlock p 0 (uaes_xor_iv (getBlock p 0) iv).1) 0) ks Nr).length = 16 := by
    apply fwd_cipher_len
    rw [hg0]
    exact hx1len
  have hp1len : (setBlock (setBlock p 0 (uaes_xor_iv (getBlock p 0) iv).1) 0
      (uaes_foward_cipher
        (getBlock (setBlock p 0 (uaes_xor_iv (getBlock p 0) iv).1) 0) ks Nr)).length =
      p.length := by
    rw [setBlock_len hfwdlen hp0c16, hp0len]
  have h0 : getBlock (setBlock (setBlock p 0 (uaes_xor_iv (getBlock p 0) iv).1) 0
      (uaes_foward_cipher
        (getBlock (setBlock p 0 (uaes_xor_iv (getBlock p 0) iv).1) 0) ks Nr)) 0 =
      cbcChain ks Nr p iv 0 := by
    rw [getBlock_setBlock_same hfwdlen hp0c16, hg0]
    rfl
  have hrest : ∀ j, 1 ≤ j → getBlock (setBlock (setBlock p 0
      (uaes_xor_iv (getBlock p 0) iv).1) 0
      (uaes_foward_cipher
        (getBlock (setBlock p 0 (uaes_xor_iv (getBlock p 0) iv).1) 0) ks Nr)) j =
      getBlock p j := by
    intro j hj
    rw [getBlock_setBlock_ne hfwdlen hp0c16 (by omega),
      getBlock_setBlock_ne hx1len hp016 (by omega)]
  obtain ⟨hlen, hchain, _⟩ := cbcEncLoop_spec ks Nr p iv hiv m _ hp1len (by omega) h0 hrest
  exact ⟨hlen, hchain⟩

/-- Claim C1: for every variant in {AES-128, AES-192, AES-256}, key of the
matching length, buffer whose length is a multiple of 16 and at most 64
bytes, and 16-byte IV, running the matching decryption entry point on the
output of the encryption entry point with the same key (and identical IV for
CBC) restores the buffer exactly, for ECB (`uaes_ecb_encryption` /
`uaes_ecb_decryption`) and CBC (`uaes_cbc_encryption` /
`uaes_cbc_decryption`). -/
theorem C1_roundtrip (mode : Nat) (key p iv : List Nat) (size : Nat)
    (hmode : mode < 3) (_hkey : key.length = 4 * NkOf mode)
    (hsize : size = p.length) (hmul : size % 16 = 0) (hpos : 0 < size) (hle : size ≤ 64)
    (hp : ∀ x ∈ p, x < 256) (hiv : iv.length = 16) (hivb : ∀ x ∈ iv, x < 256) :
    (uaes_ecb_decryption
        (uaes_ecb_encryption (some p) size (some key) mode).2.1 size (some key) mode).2.1 =
      some p ∧
    (uaes_cbc_decryption
        (uaes_cbc_encryption (some p) size (some key) (some iv) mode).2.1 size (some key)
        (some iv) mode).2.1 = some p := by
  have hcond : 0 < size ∧ size ≤ 64 ∧ mode < 3 := ⟨hpos, hle, hmode⟩
  have hoff : 16 * offsetOf size = size := offsetOf_eq hmul
  have hplen : p.length = 16 * offsetOf size := by omega
  set ks := key_expansion key (NkOf mode) (4 * (NrOf mode + 1)) with hks
  set Nr := NrOf mode with hNrd
  set off := offsetOf size with hoffd
  constructor
  · -- ECB round trip
    obtain ⟨helen, heget⟩ := walk_spec (fun b => uaes_foward_cipher b ks Nr)
      (fun b hb => fwd_cipher_len ks Nr hb) off p (by omega)
    have henc2 : (uaes_ecb_encryption (some p) size (some key) mode).2.1 =
        some ((List.range off).foldl
          (fun b idx => setBlock b idx (uaes_foward_cipher (getBlock b idx) ks Nr)) p) := by
      simp only [uaes_ecb_encryption]
      rw [if_pos hcond]
    rw [henc2]
    obtain ⟨hdlen, hdget⟩ := walk_spec (fun b => uaes_inverse_cipher b ks Nr)
      (fun b hb => inv_cipher_len ks Nr hb) off
      ((List.range off).foldl
        (fun b idx => setBlock b idx (uaes_foward_cipher (getBlock b idx) ks Nr)) p)
      (by rw [helen]; omega)
    have hdec2 : (uaes_ecb_decryption
        (some ((List.range off).foldl
          (fun b idx => setBlock b idx (uaes_foward_cipher (getBlock b idx) ks Nr)) p))
        size (some key) mode).2.1 =
        some ((List.range off).foldl
          (fun b idx => setBlock b idx (uaes_inverse_cipher (getBlock b idx) ks Nr))
          ((List.range off).foldl
            (fun b idx => setBlock b idx (uaes_foward_cipher (getBlock b idx) ks Nr)) p)) := by
      simp only [uaes_ecb_decryption]
      rw [if_pos hcond]
    rw [hdec2]
    refine congrArg some ?_
    refine @blocks_ext off _ _ ?_ ?_ ?_
    · rw [hdlen, helen]
      exact hplen
    · exact hplen
    · intro j hj
      have h16j : 16 * j + 16 ≤ p.length := by omega
      have e2 : getBlock ((List.range off).foldl
          (fun b idx => setBlock b idx (uaes_foward_cipher (getBlock b idx) ks Nr)) p) j =
          uaes_foward_cipher (getBlock p j) ks Nr := by
        have := heget j
        rw [if_pos hj] at this
        exact this
      have e1 := hdget j
      rw [if_pos hj, e2] at e1
      exact e1.trans (cipher_inv ks Nr (getBlock_len h16j) (getBlock_lt j hp))
  · -- CBC round trip
    obtain ⟨m, hm⟩ : ∃ m, off = m + 1 := ⟨off - 1, by omega⟩
    have hplen2 : p.length = 16 * (m + 1) := by omega
    obtain ⟨hClen, hCchain⟩ := cbc_enc_blocks ks Nr p iv m hplen2 hiv
    have henc2 : (uaes_cbc_encryption (some p) size (some key) (some iv) mode).2.1 =
        some (cbcEncLoop ks Nr
          (setBlock (setBlock p 0 (uaes_xor_iv (getBlock p 0) iv).1) 0
            (uaes_foward_cipher
              (getBlock (setBlock p 0 (uaes_xor_iv (getBlock p 0) iv).1) 0) ks Nr))
          (m + 1)) := by
      simp only [uaes_cbc_encryption]
      rw [if_pos hcond, ← hoffd, hm]
    rw [henc2]
    set C := cbcEncLoop ks Nr
      (setBlock (setBlock p 0 (uaes_xor_iv (getBlock p 0) iv).1) 0
        (uaes_foward_cipher
          (getBlock (setBlock p 0 (uaes_xor_iv (getBlock p 0) iv).1) 0) ks Nr))
      (m + 1) with hCdef
    obtain ⟨hd1len, hd10, hd1mid, hd1rest⟩ := cbcDecLoop_spec ks Nr m C
      (by rw [hClen]; omega)
    have hdec2 : (uaes_cbc_decryption (some C) size (some key) (some iv) mode).2.1 =
        some (setBlock
          (setBlock (cbcDecLoop ks Nr C m) 0
            (uaes_inverse_cipher (getBlock (cbcDecLoop ks Nr C m) 0) ks Nr)) 0
          (uaes_xor_iv
            (getBlock (setBlock (cbcDecLoop ks Nr C m) 0
              (uaes_inverse_cipher (getBlock (cbcDecLoop ks Nr C m) 0) ks Nr)) 0) iv).1) := by
      simp only [uaes_cbc_decryption]
      rw [if_pos hcond, ← hoffd, hm]
      simp only [Nat.add_sub_cancel]
    rw [hdec2]
    refine congrArg some ?_
    -- facts about chain blocks
    have hchainlen : ∀ j, j ≤ m → (cbcChain ks Nr p iv j).length = 16 := by
      intro j hj
      exact cbcChain_len hiv j (by omega)
    have hchainlt : ∀ j, j ≤ m → ∀ x ∈ cbcChain ks Nr p iv j, x < 256 := by
      intro j hj
      exact cbcChain_lt hiv hivb hp j (by omega)
    have hinv0 : uaes_inverse_cipher (cbcChain ks Nr p iv 0) ks Nr =
        (uaes_xor_iv (getBlock p 0) iv).1 := by
      have hxl : (uaes_xor_iv (getBlock p 0) iv).1.length = 16 := by
        rw [zip_xor_len, getBlock_len (by omega), hiv]
        simp
      have hxb := zip_xor_lt (getBlock p 0) iv (getBlock_lt 0 hp) hivb
      simp only [cbcChain]
      exact cipher_inv ks Nr hxl hxb
    have hinvS : ∀ j, j + 1 ≤ m →
        uaes_inverse_cipher (cbcChain ks Nr p iv (j + 1)) ks Nr =
          (uaes_xor_iv (getBlock p (j + 1)) (cbcChain ks Nr p iv j)).1 := by
      intro j hj
      have hxl : (uaes_xor_iv (getBlock p (j + 1)) (cbcChain ks Nr p iv j)).1.length = 16 := by
        rw [zip_xor_len, getBlock_len (by omega), hchainlen j (by omega)]
        simp
      have hxb := zip_xor_lt (getBlock p (j + 1)) (cbcChain ks Nr p iv j)
        (getBlock_lt (j + 1) hp) (hchainlt j (by omega))
      simp only [cbcChain]
      exact cipher_inv ks Nr hxl hxb
    -- block 0 of the decryption walk
    have hg10 : getBlock (cbcDecLoop ks Nr C m) 0 = cbcChain ks Nr p iv 0 := by
      rw [hd10]
      exact hCchain 0 (by omega)
    have hinvlen0 : (uaes_inverse_cipher (getBlock (cbcDecLoop ks Nr C m) 0) ks Nr).length =
        16 := by
      apply inv_cipher_len
      rw [hg10]
      exact hchainlen 0 (by omega)
    have hd1c16 : 16 * 0 + 16 ≤ (cbcDecLoop ks Nr C m).length := by
      rw [hd1len, hClen]
      omega
    have hg20 : getBlock (setBlock (cbcDecLoop ks Nr C m) 0
        (uaes_inverse_cipher (getBlock (cbcDecLoop ks Nr C m) 0) ks Nr)) 0 =
        (uaes_xor_iv (getBlock p 0) iv).1 := by
      rw [getBlock_setBlock_same hinvlen0 hd1c16, hg10, hinv0]
    have hxfin : (uaes_xor_iv
        (getBlock (setBlock (cbcDecLoop ks Nr C m) 0
          (uaes_inverse_cipher (getBlock (cbcDecLoop ks Nr C m) 0) ks Nr)) 0) iv).1 =
        getBlock p 0 := by
      rw [hg20]
      exact zip_xor_cancel (getBlock p 0) iv (by rw [getBlock_len (by omega), hiv])
    have hxfinlen : ((uaes_xor_iv
        (getBlock (setBlock (cbcDecLoop ks Nr C m) 0
          (uaes_inverse_cipher (getBlock (cbcDecLoop ks Nr C m) 0) ks Nr)) 0) iv).1).length =
        16 := by
      rw [hxfin]
      exact getBlock_len (by omega)
    have hd2len : (setBlock (cbcDecLoop ks Nr C m) 0
        (uaes_inverse_cipher (getBlock (cbcDecLoop ks Nr C m) 0) ks Nr)).length =
        p.length := by
      rw [setBlock_len hinvlen0 hd1c16, hd1len, hClen]
    have hd2c16 : 16 * 0 + 16 ≤ (setBlock (cbcDecLoop ks Nr C m) 0
        (uaes_inverse_cipher (getBlock (cbcDecLoop ks Nr C m) 0) ks Nr)).length := by
      rw [hd2len]
      omega
    refine @blocks_ext (m + 1) _ _ ?_ ?_ ?_
    · rw [setBlock_len hxfinlen hd2c16, hd2len, hplen2]
    · rw [hplen2]
    · intro j hj
      by_cases hj0 : j = 0
      · subst hj0
        rw [getBlock_setBlock_same hxfinlen hd2c16, hxfin]
      · rw [getBlock_setBlock_ne hxfinlen hd2c16 hj0,
          getBlock_setBlock_ne hinvlen0 hd1c16 hj0]
        obtain ⟨k, hk⟩ : ∃ k, j = k + 1 := ⟨j - 1, by omega⟩
        subst hk
        rw [hd1mid (k + 1) (by omega) (by omega)]
        simp only [Nat.add_sub_cancel]
        rw [hCchain (k + 1) (by omega), hCchain k (by omega), hinvS k (by omega)]
        have hlen1 : (uaes_xor_iv (getBlock p (k + 1)) (cbcChain ks Nr p iv k)).1.length =
            16 := by
          rw [zip_xor_len, getBlock_len (by omega), hchainlen k (by omega)]
          simp
        exact zip_xor_cancel (getBlock p (k + 1)) (cbcChain ks Nr p iv k)
          (by rw [getBlock_len (by omega), hchainlen k (by omega)])

/-- Claim C1 witness: the round trip instantiated at AES-128, an all-zero
16-byte key, buffer and IV. -/
theorem C1_roundtrip_witness :
    (uaes_ecb_decryption
        (uaes_ecb_encryption (some [0, 0, 0, 0, 0, 0, 0, 0, 0, 0, 0, 0, 0, 0, 0, 0]) 16
          (some [0, 0, 0, 0, 0, 0, 0, 0, 0, 0, 0, 0, 0, 0, 0, 0]) 0).2.1 16
        (some [0, 0, 0, 0, 0, 0, 0, 0, 0, 0, 0, 0, 0, 0, 0, 0]) 0).2.1 =
      some [0, 0, 0, 0, 0, 0, 0, 0, 0, 0, 0, 0, 0, 0, 0, 0] ∧
    (uaes_cbc_decryption
        (uaes_cbc_encryption (some [0, 0, 0, 0, 0, 0, 0, 0, 0, 0, 0, 0, 0, 0, 0, 0]) 16
          (some [0, 0, 0, 0, 0, 0, 0, 0, 0, 0, 0, 0, 0, 0, 0, 0])
          (some [0, 0, 0, 0, 0, 0, 0, 0, 0, 0, 0, 0, 0, 0, 0, 0]) 0).2.1 16
        (some [0, 0, 0, 0, 0, 0, 0, 0, 0, 0, 0, 0, 0, 0, 0, 0])
        (some [0, 0, 0, 0, 0, 0, 0, 0, 0, 0, 0, 0, 0, 0, 0, 0]) 0).2.1 =
      some [0, 0, 0, 0, 0, 0, 0, 0, 0, 0, 0, 0, 0, 0, 0, 0] :=
  C1_roundtrip 0 [0, 0, 0, 0, 0, 0, 0, 0, 0, 0, 0, 0, 0, 0, 0, 0]
    [0, 0, 0, 0, 0, 0, 0, 0, 0, 0, 0, 0, 0, 0, 0, 0]
    [0, 0, 0, 0, 0, 0, 0, 0, 0, 0, 0, 0, 0, 0, 0, 0] 16
    (by decide) (by decide) (by decide) (by decide) (by decide) (by decide)
    (by decide) (by decide) (by decide)

set_option maxRecDepth 100000 in
/-- Claim C2: `uaes128enc` with the FIPS-197 Appendix B key
2b7e151628aed2a6abf7158809cf4f3c on the Appendix B plaintext
3243f6a8885a308d313198a2e0370734 overwrites the buffer with exactly the
ciphertext 3925841d02dc09fbdc118597196a0b32 and returns success (0). -/
theorem C2_fips197_appendix_b :
    uaes128enc
      (some [0x32, 0x43, 0xf6, 0xa8, 0x88, 0x5a, 0x30, 0x8d,
             0x31, 0x31, 0x98, 0xa2, 0xe0, 0x37, 0x07, 0x34])
      (some [0x2b, 0x7e, 0x15, 0x16, 0x28, 0xae, 0xd2, 0xa6,
             0xab, 0xf7, 0x15, 0x88, 0x09, 0xcf, 0x4f, 0x3c]) 16 =
    (0, some [0x39, 0x25, 0x84, 0x1d, 0x02, 0xdc, 0x09, 0xfb,
              0xdc, 0x11, 0x85, 0x97, 0x19, 0x6a, 0x0b, 0x32],
     some [0x2b, 0x7e, 0x15, 0x16, 0x28, 0xae, 0xd2, 0xa6,
           0xab, 0xf7, 0x15, 0x88, 0x09, 0xcf, 0x4f, 0x3c]) := by
  decide

/-- Claim C4: the forward cipher on one block performs exactly add_round_key
with round 0, then for each round 1 .. Nr-1 the sequence sub_bytes,
shift_rows, mix_columns, add_round_key(round), then a final round of
sub_bytes, shift_rows, add_round_key(Nr) with no mix_columns: it coincides
with the spec-shaped `specForwardCipher` built from `fwdRounds`. -/
theorem C4_forward_cipher_structure (buf kschd : List Nat) (Nr : Nat) :
    uaes_foward_cipher buf kschd Nr = specForwardCipher kschd Nr buf := by
  simp only [uaes_foward_cipher, specForwardCipher]
  rw [fwd_foldl]

/-- Claim C5: for every valid CBC encryption call on a buffer of
`offsetOf size` blocks, ciphertext block 0 is the forward cipher of plaintext
block 0 XORed with the IV, and every later ciphertext block j is the forward
cipher of plaintext block j XORed with the just-produced ciphertext block
j-1. -/
theorem C5_cbc_enc_chaining (mode size : Nat) (key p iv : List Nat)
    (hmode : mode < 3) (hpos : 0 < size) (hle : size ≤ 64)
    (hplen : p.length = 16 * offsetOf size) (hiv : iv.length = 16) :
    ∃ cout : List Nat,
      (uaes_cbc_encryption (some p) size (some key) (some iv) mode).2.1 = some cout ∧
      getBlock cout 0 = uaes_foward_cipher (uaes_xor_iv (getBlock p 0) iv).1
        (key_expansion key (NkOf mode) (4 * (NrOf mode + 1))) (NrOf mode) ∧
      ∀ j, 1 ≤ j → j < offsetOf size →
        getBlock cout j = uaes_foward_cipher
          (uaes_xor_iv (getBlock p j) (getBlock cout (j - 1))).1
          (key_expansion key (NkOf mode) (4 * (NrOf mode + 1))) (NrOf mode) := by
  have hcond : 0 < size ∧ size ≤ 64 ∧ mode < 3 := ⟨hpos, hle, hmode⟩
  set ks := key_expansion key (NkOf mode) (4 * (NrOf mode + 1)) with hks
  set Nr := NrOf mode with hNrd
  obtain ⟨m, hm⟩ : ∃ m, offsetOf size = m + 1 := by
    refine ⟨offsetOf size - 1, ?_⟩
    have : 1 ≤ offsetOf size := by
      unfold offsetOf
      split <;> omega
    omega
  have hplen2 : p.length = 16 * (m + 1) := by rw [hplen, hm]
  obtain ⟨hClen, hCchain⟩ := cbc_enc_blocks ks Nr p iv m hplen2 hiv
  refine ⟨cbcEncLoop ks Nr
    (setBlock (setBlock p 0 (uaes_xor_iv (getBlock p 0) iv).1) 0
      (uaes_foward_cipher
        (getBlock (setBlock p 0 (uaes_xor_iv (getBlock p 0) iv).1) 0) ks Nr)) (m + 1),
    ?_, ?_, ?_⟩
  · simp only [uaes_cbc_encryption]
    rw [if_pos hcond, hm]
  · rw [hCchain 0 (by omega)]
    rfl
  · intro j h1 hj
    obtain ⟨k, hk⟩ : ∃ k, j = k + 1 := ⟨j - 1, by omega⟩
    subst hk
    simp only [Nat.add_sub_cancel]
    rw [hCchain (k + 1) (by omega), hCchain k (by omega)]
    simp only [cbcChain]

/-- Claim C5 witness: CBC chaining instantiated at AES-128 with a 32-byte
all-zero buffer, all-zero key and IV. -/
theorem C5_cbc_enc_chaining_witness :
    ∃ cout : List Nat,
      (uaes_cbc_encryption
        (some (List.replicate 32 0)) 32
        (some [0, 0, 0, 0, 0, 0, 0, 0, 0, 0, 0, 0, 0, 0, 0, 0])
        (some [0, 0, 0, 0, 0, 0, 0, 0, 0, 0, 0, 0, 0, 0, 0, 0]) 0).2.1 = some cout ∧
      getBlock cout 0 = uaes_foward_cipher
        (uaes_xor_iv (getBlock (List.replicate 32 0) 0)
          [0, 0, 0, 0, 0, 0, 0, 0, 0, 0, 0, 0, 0, 0, 0, 0]).1
        (key_expansion [0, 0, 0, 0, 0, 0, 0, 0, 0, 0, 0, 0, 0, 0, 0, 0] (NkOf 0)
          (4 * (NrOf 0 + 1))) (NrOf 0) ∧
      ∀ j, 1 ≤ j → j < offsetOf 32 →
        getBlock cout j = uaes_foward_cipher
          (uaes_xor_iv (getBlock (List.replicate 32 0) j) (getBlock cout (j - 1))).1
          (key_expansion [0, 0, 0, 0, 0, 0, 0, 0, 0, 0, 0, 0, 0, 0, 0, 0] (NkOf 0)
            (4 * (NrOf 0 + 1))) (NrOf 0) :=
  C5_cbc_enc_chaining 0 32 [0, 0, 0, 0, 0, 0, 0, 0, 0, 0, 0, 0, 0, 0, 0, 0]
    (List.replicate 32 0) [0, 0, 0, 0, 0, 0, 0, 0, 0, 0, 0, 0, 0, 0, 0, 0]
    (by decide) (by decide) (by decide) (by decide) (by decide)

/-- Claim C6: for every valid CBC decryption call on a buffer of
`offsetOf size` blocks, output block j (for 1 <= j < offset) is the inverse
cipher of ciphertext block j XORed with the still-untouched original
ciphertext block j-1, and output block 0 is the inverse cipher of ciphertext
block 0 XORed with the IV (the blocks are walked in decreasing order, so
block j-1 still holds ciphertext when block j is processed). -/
theorem C6_cbc_dec_structure (mode size : Nat) (key ct iv : List Nat)
    (hmode : mode < 3) (hpos : 0 < size) (hle : size ≤ 64)
    (hclen : ct.length = 16 * offsetOf size) (hiv : iv.length = 16) :
    ∃ r : List Nat,
      (uaes_cbc_decryption (some ct) size (some key) (some iv) mode).2.1 = some r ∧
      getBlock r 0 = (uaes_xor_iv (uaes_inverse_cipher (getBlock ct 0)
        (key_expansion key (NkOf mode) (4 * (NrOf mode + 1))) (NrOf mode)) iv).1 ∧
      ∀ j, 1 ≤ j → j < offsetOf size →
        getBlock r j = (uaes_xor_iv (uaes_inverse_cipher (getBlock ct j)
          (key_expansion key (NkOf mode) (4 * (NrOf mode + 1))) (NrOf mode))
          (getBlock ct (j - 1))).1 := by
  have hcond : 0 < size ∧ size ≤ 64 ∧ mode < 3 := ⟨hpos, hle, hmode⟩
  set ks := key_expansion key (NkOf mode) (4 * (NrOf mode + 1)) with hks
  set Nr := NrOf mode with hNrd
  obtain ⟨m, hm⟩ : ∃ m, offsetOf size = m + 1 := by
    refine ⟨offsetOf size - 1, ?_⟩
    have : 1 ≤ offsetOf size := by
      unfold offsetOf
      split <;> omega
    omega
  have hclen2 : ct.length = 16 * (m + 1) := by rw [hclen, hm]
  obtain ⟨hd1len, hd10, hd1mid, hd1rest⟩ := cbcDecLoop_spec ks Nr m ct (by omega)
  have hd1c16 : 16 * 0 + 16 ≤ (cbcDecLoop ks Nr ct m).length := by
    rw [hd1len]
    omega
  have hg10 : getBlock (cbcDecLoop ks Nr ct m) 0 = getBlock ct 0 := hd10
  have hinvlen0 : (uaes_inverse_cipher (getBlock (cbcDecLoop ks Nr ct m) 0) ks Nr).length =
      16 := by
    apply inv_cipher_len
    rw [hg10]
    exact getBlock_len (by omega)
  have hg20 : getBlock (setBlock (cbcDecLoop ks Nr ct m) 0
      (uaes_inverse_cipher (getBlock (cbcDecLoop ks Nr ct m) 0) ks Nr)) 0 =
      uaes_inverse_cipher (getBlock ct 0) ks Nr := by
    rw [getBlock_setBlock_same hinvlen0 hd1c16, hg10]
  have hxlen : ((uaes_xor_iv (getBlock (setBlock (cbcDecLoop ks Nr ct m) 0
      (uaes_inverse_cipher (getBlock (cbcDecLoop ks Nr ct m) 0) ks Nr)) 0) iv).1).length =
      16 := by
    rw [hg20, zip_xor_len, inv_cipher_len ks Nr (getBlock_len (by omega)), hiv]
    simp
  have hd2c16 : 16 * 0 + 16 ≤ (setBlock (cbcDecLoop ks Nr ct m) 0
      (uaes_inverse_cipher (getBlock (cbcDecLoop ks Nr ct m) 0) ks Nr)).length := by
    rw [setBlock_len hinvlen0 hd1c16, hd1len]
    omega
  refine ⟨setBlock (setBlock (cbcDecLoop ks Nr ct m) 0
      (uaes_inverse_cipher (getBlock (cbcDecLoop ks Nr ct m) 0) ks Nr)) 0
      (uaes_xor_iv (getBlock (setBlock (cbcDecLoop ks Nr ct m) 0
        (uaes_inverse_cipher (getBlock (cbcDecLoop ks Nr ct m) 0) ks Nr)) 0) iv).1,
    ?_, ?_, ?_⟩
  · simp only [uaes_cbc_decryption]
    rw [if_pos hcond, hm]
    simp only [Nat.add_sub_cancel]
  · rw [getBlock_setBlock_same hxlen hd2c16, hg20]
  · intro j h1 hj
    rw [getBlock_setBlock_ne hxlen hd2c16 (by omega),
      getBlock_setBlock_ne hinvlen0 hd1c16 (by omega)]
    exact hd1mid j h1 (by omega)

/-- Claim C6 witness: the decryption structure instantiated at AES-128 with a
32-byte all-zero ciphertext, all-zero key and IV. -/
theorem C6_cbc_dec_structure_witness :
    ∃ r : List Nat,
      (uaes_cbc_decryption (some (List.replicate 32 0)) 32
        (some [0, 0, 0, 0, 0, 0, 0, 0, 0, 0, 0, 0, 0, 0, 0, 0])
        (some [0, 0, 0, 0, 0, 0, 0, 0, 0, 0, 0, 0, 0, 0, 0, 0]) 0).2.1 = some r ∧
      getBlock r 0 = (uaes_xor_iv (uaes_inverse_cipher (getBlock (List.replicate 32 0) 0)
        (key_expansion [0, 0, 0, 0, 0, 0, 0, 0, 0, 0, 0, 0, 0, 0, 0, 0] (NkOf 0)
          (4 * (NrOf 0 + 1))) (NrOf 0)) [0, 0, 0, 0, 0, 0, 0, 0, 0, 0, 0, 0, 0, 0, 0, 0]).1 ∧
      ∀ j, 1 ≤ j → j < offsetOf 32 →
        getBlock r j = (uaes_xor_iv (uaes_inverse_cipher (getBlock (List.replicate 32 0) j)
          (key_expansion [0, 0, 0, 0, 0, 0, 0, 0, 0, 0, 0, 0, 0, 0, 0, 0] (NkOf 0)
            (4 * (NrOf 0 + 1))) (NrOf 0))
          (getBlock (List.replicate 32 0) (j - 1))).1 :=
  C6_cbc_dec_structure 0 32 [0, 0, 0, 0, 0, 0, 0, 0, 0, 0, 0, 0, 0, 0, 0, 0]
    (List.replicate 32 0) [0, 0, 0, 0, 0, 0, 0, 0, 0, 0, 0, 0, 0, 0, 0, 0]
    (by decide) (by decide) (by decide) (by decide) (by decide)

/-- Claim C7: every single-block entry point with non-null buffer and key and
size between 1 and 16 treats the buffer as exactly one full 16-byte block --
it overwrites the 16-byte block at the buffer start with the single-block
cipher result, independently of the exact size -- and rejects size 0 and any
size above 16. -/
theorem C7_single_block (p key : List Nat) (s : Nat) (h1 : 1 ≤ s) (h16 : s ≤ 16) :
    (uaes128enc (some p) (some key) s =
        (0, some (setBlock p 0 (uaes_foward_cipher (getBlock p 0) (key_expansion key 4 44) 10)),
          some key) ∧
      uaes192enc (some p) (some key) s =
        (0, some (setBlock p 0 (uaes_foward_cipher (getBlock p 0) (key_expansion key 6 52) 12)),
          some key) ∧
      uaes256enc (some p) (some key) s =
        (0, some (setBlock p 0 (uaes_foward_cipher (getBlock p 0) (key_expansion key 8 60) 14)),
          some key) ∧
      uaes128dec (some p) (some key) s =
        (0, some (setBlock p 0 (uaes_inverse_cipher (getBlock p 0) (key_expansion key 4 44) 10)),
          some key) ∧
      uaes192dec (some p) (some key) s =
        (0, some (setBlock p 0 (uaes_inverse_cipher (getBlock p 0) (key_expansion key 6 52) 12)),
          some key) ∧
      uaes256dec (some p) (some key) s =
        (0, some (setBlock p 0 (uaes_inverse_cipher (getBlock p 0) (key_expansion key 8 60) 14)),
          some key)) ∧
    (uaes128enc (some p) (some key) 0 = (-1, some p, some key) ∧
      uaes192enc (some p) (some key) 0 = (-1, some p, some key) ∧
      uaes256enc (some p) (some key) 0 = (-1, some p, some key) ∧
      uaes128dec (some p) (some key) 0 = (-1, some p, some key) ∧
      uaes192dec (some p) (some key) 0 = (-1, some p, some key) ∧
      uaes256dec (some p) (some key) 0 = (-1, some p, some key)) ∧
    ∀ s2, 16 < s2 →
      (uaes128enc (some p) (some key) s2 = (-1, some p, some key) ∧
        uaes192enc (some p) (some key) s2 = (-1, some p, some key) ∧
        uaes256enc (some p) (some key) s2 = (-1, some p, some key) ∧
        uaes128dec (some p) (some key) s2 = (-1, some p, some key) ∧
        uaes192dec (some p) (some key) s2 = (-1, some p, some key) ∧
        uaes256dec (some p) (some key) s2 = (-1, some p, some key)) := by
  refine ⟨⟨?_, ?_, ?_, ?_, ?_, ?_⟩, ⟨?_, ?_, ?_, ?_, ?_, ?_⟩, ?_⟩
  · simp only [uaes128enc]
    rw [if_pos ⟨by omega, h16⟩]
  · simp only [uaes192enc]
    rw [if_pos ⟨by omega, h16⟩]
  · simp only [uaes256enc]
    rw [if_pos ⟨by omega, h16⟩]
  · simp only [uaes128dec]
    rw [if_pos ⟨by omega, h16⟩]
  · simp only [uaes192dec]
    rw [if_pos ⟨by omega, h16⟩]
  · simp only [uaes256dec]
    rw [if_pos ⟨by omega, h16⟩]
  · simp only [uaes128enc]
    rw [if_neg (by omega)]
  · simp only [uaes192enc]
    rw [if_neg (by omega)]
  · simp only [uaes256enc]
    rw [if_neg (by omega)]
  · simp only [uaes128dec]
    rw [if_neg (by omega)]
  · simp only [uaes192dec]
    rw [if_neg (by omega)]
  · simp only [uaes256dec]
    rw [if_neg (by omega)]
  · intro s2 hs2
    refine ⟨?_, ?_, ?_, ?_, ?_, ?_⟩
    · simp only [uaes128enc]
      rw [if_neg (by omega)]
    · simp only [uaes192enc]
      rw [if_neg (by omega)]
    · simp only [uaes256enc]
      rw [if_neg (by omega)]
    · simp only [uaes128dec]
      rw [if_neg (by omega)]
    · simp only [uaes192dec]
      rw [if_neg (by omega)]
    · simp only [uaes256dec]
      rw [if_neg (by omega)]

/-- Claim C7 witness: `uaes128enc` with size 7 encrypts the full 16-byte
block at the start of an all-zero buffer with an all-zero key. -/
theorem C7_single_block_witness :
    uaes128enc (some [0, 0, 0, 0, 0, 0, 0, 0, 0, 0, 0, 0, 0, 0, 0, 0])
      (some [0, 0, 0, 0, 0, 0, 0, 0, 0, 0, 0, 0, 0, 0, 0, 0]) 7 =
    (0, some (setBlock [0, 0, 0, 0, 0, 0, 0, 0, 0, 0, 0, 0, 0, 0, 0, 0] 0
        (uaes_foward_cipher (getBlock [0, 0, 0, 0, 0, 0, 0, 0, 0, 0, 0, 0, 0, 0, 0, 0] 0)
          (key_expansion [0, 0, 0, 0, 0, 0, 0, 0, 0, 0, 0, 0, 0, 0, 0, 0] 4 44) 10)),
      some [0, 0, 0, 0, 0, 0, 0, 0, 0, 0, 0, 0, 0, 0, 0, 0]) :=
  (C7_single_block [0, 0, 0, 0, 0, 0, 0, 0, 0, 0, 0, 0, 0, 0, 0, 0]
    [0, 0, 0, 0, 0, 0, 0, 0, 0, 0, 0, 0, 0, 0, 0, 0] 7 (by decide) (by decide)).1.1

/-- Claim C10: every successful CBC decryption call returns the 16-byte IV
buffer unchanged -- `uaes_xor_iv` only ever reads the IV (its stores all
target the data block), so the IV component of the result is the input IV. -/
theorem C10_cbc_dec_iv_unchanged (mode size : Nat) (key ct iv : List Nat)
    (hmode : mode < 3) (hpos : 0 < size) (hle : size ≤ 64) :
    (uaes_cbc_decryption (some ct) size (some key) (some iv) mode).2.2.2 = some iv := by
  simp only [uaes_cbc_decryption]
  rw [if_pos ⟨hpos, hle, hmode⟩]
  rfl

/-- Claim C10 witness: the IV frame property at AES-128 on a 16-byte all-zero
ciphertext, key and IV. -/
theorem C10_cbc_dec_iv_unchanged_witness :
    (uaes_cbc_decryption (some [0, 0, 0, 0, 0, 0, 0, 0, 0, 0, 0, 0, 0, 0, 0, 0]) 16
      (some [0, 0, 0, 0, 0, 0, 0, 0, 0, 0, 0, 0, 0, 0, 0, 0])
      (some [0, 0, 0, 0, 0, 0, 0, 0, 0, 0, 0, 0, 0, 0, 0, 0]) 0).2.2.2 =
    some [0, 0, 0, 0, 0, 0, 0, 0, 0, 0, 0, 0, 0, 0, 0, 0] :=
  C10_cbc_dec_iv_unchanged 0 16 [0, 0, 0, 0, 0, 0, 0, 0, 0, 0, 0, 0, 0, 0, 0, 0]
    [0, 0, 0, 0, 0, 0, 0, 0, 0, 0, 0, 0, 0, 0, 0, 0]
    [0, 0, 0, 0, 0, 0, 0, 0, 0, 0, 0, 0, 0, 0, 0, 0]
    (by decide) (by decide) (by decide)

/-- Claim C3: any call to an entry point with a null required pointer (key,
data buffer, or IV for CBC), size 0, size above the entry point's bound (64
for multi-block, 16 for single-block), or variant tag at least 3 returns the
failure sentinel -1 with every caller buffer unchanged; calls with valid
inputs return 0. -/
theorem C3_validation (p key iv : List Nat) (size mode : Nat) :
    (uaes_ecb_encryption none size (some key) mode = (-1, none, some key) ∧
      uaes_ecb_encryption (some p) size none mode = (-1, some p, none) ∧
      uaes_ecb_decryption none size (some key) mode = (-1, none, some key) ∧
      uaes_ecb_decryption (some p) size none mode = (-1, some p, none) ∧
      uaes_cbc_encryption none size (some key) (some iv) mode = (-1, none, some key, some iv) ∧
      uaes_cbc_encryption (some p) size none (some iv) mode = (-1, some p, none, some iv) ∧
      uaes_cbc_encryption (some p) size (some key) none mode = (-1, some p, some key, none) ∧
      uaes_cbc_decryption none size (some key) (some iv) mode = (-1, none, some key, some iv) ∧
      uaes_cbc_decryption (some p) size none (some iv) mode = (-1, some p, none, some iv) ∧
      uaes_cbc_decryption (some p) size (some key) none mode = (-1, some p, some key, none) ∧
      uaes128enc none (some key) size = (-1, none, some key) ∧
      uaes128enc (some p) none size = (-1, some p, none) ∧
      uaes192enc none (some key) size = (-1, none, some key) ∧
      uaes192enc (some p) none size = (-1, some p, none) ∧
      uaes256enc none (some key) size = (-1, none, some key) ∧
      uaes256enc (some p) none size = (-1, some p, none) ∧
      uaes128dec none (some key) size = (-1, none, some key) ∧
      uaes128dec (some p) none size = (-1, some p, none) ∧
      uaes192dec none (some key) size = (-1, none, some key) ∧
      uaes192dec (some p) none size = (-1, some p, none) ∧
      uaes256dec none (some key) size = (-1, none, some key) ∧
      uaes256dec (some p) none size = (-1, some p, none)) ∧
    (size = 0 ∨ 64 < size ∨ 3 ≤ mode →
      uaes_ecb_encryption (some p) size (some key) mode = (-1, some p, some key) ∧
      uaes_ecb_decryption (some p) size (some key) mode = (-1, some p, some key) ∧
      uaes_cbc_encryption (some p) size (some key) (some iv) mode =
        (-1, some p, some key, some iv) ∧
      uaes_cbc_decryption (some p) size (some key) (some iv) mode =
        (-1, some p, some key, some iv)) ∧
    (size = 0 ∨ 16 < size →
      uaes128enc (some p) (some key) size = (-1, some p, some key) ∧
      uaes192enc (some p) (some key) size = (-1, some p, some key) ∧
      uaes256enc (some p) (some key) size = (-1, some p, some key) ∧
      uaes128dec (some p) (some key) size = (-1, some p, some key) ∧
      uaes192dec (some p) (some key) size = (-1, some p, some key) ∧
      uaes256dec (some p) (some key) size = (-1, some p, some key)) ∧
    (0 < size → size ≤ 64 → mode < 3 →
      (uaes_ecb_encryption (some p) size (some key) mode).1 = 0 ∧
      (uaes_ecb_decryption (some p) size (some key) mode).1 = 0 ∧
      (uaes_cbc_encryption (some p) size (some key) (some iv) mode).1 = 0 ∧
      (uaes_cbc_decryption (some p) size (some key) (some iv) mode).1 = 0) ∧
    (0 < size → size ≤ 16 →
      (uaes128enc (some p) (some key) size).1 = 0 ∧
      (uaes192enc (some p) (some key) size).1 = 0 ∧
      (uaes256enc (some p) (some key) size).1 = 0 ∧
      (uaes128dec (some p) (some key) size).1 = 0 ∧
      (uaes192dec (some p) (some key) size).1 = 0 ∧
      (uaes256dec (some p) (some key) size).1 = 0) := by
  refine ⟨⟨rfl, rfl, rfl, rfl, rfl, rfl, rfl, rfl, rfl, rfl, rfl, rfl, rfl, rfl, rfl, rfl,
    rfl, rfl, rfl, rfl, rfl, rfl⟩, ?_, ?_, ?_, ?_⟩
  · intro h
    refine ⟨?_, ?_, ?_, ?_⟩
    · simp only [uaes_ecb_encryption]
      rw [if_neg (by omega)]
    · simp only [uaes_ecb_decryption]
      rw [if_neg (by omega)]
    · simp only [uaes_cbc_encryption]
      rw [if_neg (by omega)]
    · simp only [uaes_cbc_decryption]
      rw [if_neg (by omega)]
  · intro h
    refine ⟨?_, ?_, ?_, ?_, ?_, ?_⟩
    · simp only [uaes128enc]
      rw [if_neg (by omega)]
    · simp only [uaes192enc]
      rw [if_neg (by omega)]
    · simp only [uaes256enc]
      rw [if_neg (by omega)]
    · simp only [uaes128dec]
      rw [if_neg (by omega)]
    · simp only [uaes192dec]
      rw [if_neg (by omega)]
    · simp only [uaes256dec]
      rw [if_neg (by omega)]
  · intro h1 h2 h3
    refine ⟨?_, ?_, ?_, ?_⟩
    · simp only [uaes_ecb_encryption]
      rw [if_pos ⟨h1, h2, h3⟩]
    · simp only [uaes_ecb_decryption]
      rw [if_pos ⟨h1, h2, h3⟩]
    · simp only [uaes_cbc_encryption]
      rw [if_pos ⟨h1, h2, h3⟩]
    · simp only [uaes_cbc_decryption]
      rw [if_pos ⟨h1, h2, h3⟩]
  · intro h1 h2
    refine ⟨?_, ?_, ?_, ?_, ?_, ?_⟩
    · simp only [uaes128enc]
      rw [if_pos ⟨h1, h2⟩]
    · simp only [uaes192enc]
      rw [if_pos ⟨h1, h2⟩]
    · simp only [uaes256enc]
      rw [if_pos ⟨h1, h2⟩]
    · simp only [uaes128dec]
      rw [if_pos ⟨h1, h2⟩]
    · simp only [uaes192dec]
      rw [if_pos ⟨h1, h2⟩]
    · simp only [uaes256dec]
      rw [if_pos ⟨h1, h2⟩]

/-- Claim C3 witness: rejection of a zero-size CBC encryption call and
success of a 16-byte one, at AES-128 with all-zero buffers. -/
theorem C3_validation_witness :
    uaes_cbc_encryption (some [0, 0, 0, 0, 0, 0, 0, 0, 0, 0, 0, 0, 0, 0, 0, 0]) 0
      (some [0, 0, 0, 0, 0, 0, 0, 0, 0, 0, 0, 0, 0, 0, 0, 0])
      (some [0, 0, 0, 0, 0, 0, 0, 0, 0, 0, 0, 0, 0, 0, 0, 0]) 0 =
      (-1, some [0, 0, 0, 0, 0, 0, 0, 0, 0, 0, 0, 0, 0, 0, 0, 0],
        some [0, 0, 0, 0, 0, 0, 0, 0, 0, 0, 0, 0, 0, 0, 0, 0],
        some [0, 0, 0, 0, 0, 0, 0, 0, 0, 0, 0, 0, 0, 0, 0, 0]) ∧
    (uaes_cbc_encryption (some [0, 0, 0, 0, 0, 0, 0, 0, 0, 0, 0, 0, 0, 0, 0, 0]) 16
      (some [0, 0, 0, 0, 0, 0, 0, 0, 0, 0, 0, 0, 0, 0, 0, 0])
      (some [0, 0, 0, 0, 0, 0, 0, 0, 0, 0, 0, 0, 0, 0, 0, 0]) 0).1 = 0 :=
  ⟨((C3_validation [0, 0, 0, 0, 0, 0, 0, 0, 0, 0, 0, 0, 0, 0, 0, 0]
      [0, 0, 0, 0, 0, 0, 0, 0, 0, 0, 0, 0, 0, 0, 0, 0]
      [0, 0, 0, 0, 0, 0, 0, 0, 0, 0, 0, 0, 0, 0, 0, 0] 0 0).2.1
      (Or.inl rfl)).2.2.1,
    ((C3_validation [0, 0, 0, 0, 0, 0, 0, 0, 0, 0, 0, 0, 0, 0, 0, 0]
      [0, 0, 0, 0, 0, 0, 0, 0, 0, 0, 0, 0, 0, 0, 0, 0]
      [0, 0, 0, 0, 0, 0, 0, 0, 0, 0, 0, 0, 0, 0, 0, 0] 16 0).2.2.2.1
      (by decide) (by decide) (by decide)).2.2.1⟩

/-- Claim C9: every successful multi-block call (ECB or CBC, encrypt or
decrypt) with size s modifies only the first 16 * ceil(s/16) bytes of the
data buffer -- every byte at or beyond offset 16 * offsetOf s keeps its
value, and the buffer length is preserved. -/
theorem C9_untouched_tail (mode size : Nat) (key p iv : List Nat)
    (hmode : mode < 3) (hpos : 0 < size) (hle : size ≤ 64)
    (hlen : 16 * offsetOf size ≤ p.length) (hiv : iv.length = 16) :
    (∃ bout : List Nat,
      (uaes_ecb_encryption (some p) size (some key) mode).2.1 = some bout ∧
      bout.length = p.length ∧ ∀ j, 16 * offsetOf size ≤ j → bout[j]? = p[j]?) ∧
    (∃ bout : List Nat,
      (uaes_ecb_decryption (some p) size (some key) mode).2.1 = some bout ∧
      bout.length = p.length ∧ ∀ j, 16 * offsetOf size ≤ j → bout[j]? = p[j]?) ∧
    (∃ bout : List Nat,
      (uaes_cbc_encryption (some p) size (some key) (some iv) mode).2.1 = some bout ∧
      bout.length = p.length ∧ ∀ j, 16 * offsetOf size ≤ j → bout[j]? = p[j]?) ∧
    (∃ bout : List Nat,
      (uaes_cbc_decryption (some p) size (some key) (some iv) mode).2.1 = some bout ∧
      bout.length = p.length ∧ ∀ j, 16 * offsetOf size ≤ j → bout[j]? = p[j]?) := by
  have hcond : 0 < size ∧ size ≤ 64 ∧ mode < 3 := ⟨hpos, hle, hmode⟩
  set ks := key_expansion key (NkOf mode) (4 * (NrOf mode + 1)) with hks
  set Nr := NrOf mode with hNrd
  obtain ⟨m, hm⟩ : ∃ m, offsetOf size = m + 1 := by
    refine ⟨offsetOf size - 1, ?_⟩
    have : 1 ≤ offsetOf size := by
      unfold offsetOf
      split <;> omega
    omega
  have hlen2 : 16 * (m + 1) ≤ p.length := by omega
  refine ⟨?_, ?_, ?_, ?_⟩
  · obtain ⟨helen, _⟩ := walk_spec (fun b => uaes_foward_cipher b ks Nr)
      (fun b hb => fwd_cipher_len ks Nr hb) (offsetOf size) p (by omega)
    refine ⟨_, ?_, helen, ?_⟩
    · simp only [uaes_ecb_encryption]
      rw [if_pos hcond]
    · intro j hj
      exact walk_frame (fun b => uaes_foward_cipher b ks Nr)
        (fun b hb => fwd_cipher_len ks Nr hb) (offsetOf size) p (by omega) j hj
  · obtain ⟨helen, _⟩ := walk_spec (fun b => uaes_inverse_cipher b ks Nr)
      (fun b hb => inv_cipher_len ks Nr hb) (offsetOf size) p (by omega)
    refine ⟨_, ?_, helen, ?_⟩
    · simp only [uaes_ecb_decryption]
      rw [if_pos hcond]
    · intro j hj
      exact walk_frame (fun b => uaes_inverse_cipher b ks Nr)
        (fun b hb => inv_cipher_len ks Nr hb) (offsetOf size) p (by omega) j hj
  · -- CBC encryption
    have hp016 : 16 * 0 + 16 ≤ p.length := by omega
    have hx1len : (uaes_xor_iv (getBlock p 0) iv).1.length = 16 := by
      rw [zip_xor_len, getBlock_len hp016, hiv]
      simp
    have hp0len : (setBlock p 0 (uaes_xor_iv (getBlock p 0) iv).1).length = p.length :=
      setBlock_len hx1len hp016
    have hp0c16 : 16 * 0 + 16 ≤ (setBlock p 0 (uaes_xor_iv (getBlock p 0) iv).1).length := by
      rw [hp0len]
      exact hp016
    have hfwdlen : (uaes_foward_cipher
        (getBlock (setBlock p 0 (uaes_xor_iv (getBlock p 0) iv).1) 0) ks Nr).length = 16 := by
      apply fwd_cipher_len
      rw [getBlock_setBlock_same hx1len hp016]
      exact hx1len
    have hp1len : (setBlock (setBlock p 0 (uaes_xor_iv (getBlock p 0) iv).1) 0
        (uaes_foward_cipher
          (getBlock (setBlock p 0 (uaes_xor_iv (getBlock p 0) iv).1) 0) ks Nr)).length =
        p.length := by
      rw [setBlock_len hfwdlen hp0c16, hp0len]
    obtain ⟨hloope, hframee⟩ := cbcEncLoop_frame ks Nr m
      (setBlock (setBlock p 0 (uaes_xor_iv (getBlock p 0) iv).1) 0
        (uaes_foward_cipher
          (getBlock (setBlock p 0 (uaes_xor_iv (getBlock p 0) iv).1) 0) ks Nr))
      (by rw [hp1len]; omega)
    refine ⟨cbcEncLoop ks Nr
      (setBlock (setBlock p 0 (uaes_xor_iv (getBlock p 0) iv).1) 0
        (uaes_foward_cipher
          (getBlock (setBlock p 0 (uaes_xor_iv (getBlock p 0) iv).1) 0) ks Nr))
      (m + 1), ?_, ?_, ?_⟩
    · simp only [uaes_cbc_encryption]
      rw [if_pos hcond, hm]
    · rw [hloope, hp1len]
    · intro j hj
      rw [hframee j (by omega)]
      rw [setBlock_getElem_out hfwdlen hp0c16 (Or.inr (by omega)),
        setBlock_getElem_out hx1len hp016 (Or.inr (by omega))]
  · -- CBC decryption
    obtain ⟨hd1len, hd10, hd1mid, hd1rest⟩ := cbcDecLoop_spec ks Nr m p (by omega)
    have hd1c16 : 16 * 0 + 16 ≤ (cbcDecLoop ks Nr p m).length := by
      rw [hd1len]
      omega
    have hinvlen0 : (uaes_inverse_cipher (getBlock (cbcDecLoop ks Nr p m) 0) ks Nr).length =
        16 := by
      apply inv_cipher_len
      rw [hd10]
      exact getBlock_len (by omega)
    have hd2len : (setBlock (cbcDecLoop ks Nr p m) 0
        (uaes_inverse_cipher (getBlock (cbcDecLoop ks Nr p m) 0) ks Nr)).length =
        p.length := by
      rw [setBlock_len hinvlen0 hd1c16, hd1len]
    have hd2c16 : 16 * 0 + 16 ≤ (setBlock (cbcDecLoop ks Nr p m) 0
        (uaes_inverse_cipher (getBlock (cbcDecLoop ks Nr p m) 0) ks Nr)).length := by
      rw [hd2len]
      omega
    have hxfinlen : ((uaes_xor_iv (getBlock (setBlock (cbcDecLoop ks Nr p m) 0
        (uaes_inverse_cipher (getBlock (cbcDecLoop ks Nr p m) 0) ks Nr)) 0) iv).1).length =
        16 := by
      rw [getBlock_setBlock_same hinvlen0 hd1c16, zip_xor_len, hinvlen0, hiv]
      simp
    refine ⟨setBlock (setBlock (cbcDecLoop ks Nr p m) 0
      (uaes_inverse_cipher (getBlock (cbcDecLoop ks Nr p m) 0) ks Nr)) 0
      (uaes_xor_iv (getBlock (setBlock (cbcDecLoop ks Nr p m) 0
        (uaes_inverse_cipher (getBlock (cbcDecLoop ks Nr p m) 0) ks Nr)) 0) iv).1,
      ?_, ?_, ?_⟩
    · simp only [uaes_cbc_decryption]
      rw [if_pos hcond, hm]
      simp only [Nat.add_sub_cancel]
    · rw [setBlock_len hxfinlen hd2c16, hd2len]
    · intro j hj
      rw [setBlock_getElem_out hxfinlen hd2c16 (Or.inr (by omega)),
        setBlock_getElem_out hinvlen0 hd1c16 (Or.inr (by omega))]
      exact cbcDecLoop_frame ks Nr m p (by omega) j (by omega)

/-- Claim C9 witness: the frame property at AES-128, size 16, on a 20-byte
buffer whose last 4 bytes lie beyond the processed region. -/
theorem C9_untouched_tail_witness :
    ∃ bout : List Nat,
      (uaes_ecb_encryption (some (List.replicate 20 7)) 16
        (some [0, 0, 0, 0, 0, 0, 0, 0, 0, 0, 0, 0, 0, 0, 0, 0]) 0).2.1 = some bout ∧
      bout.length = (List.replicate 20 7).length ∧
      ∀ j, 16 * offsetOf 16 ≤ j → bout[j]? = (List.replicate 20 7)[j]? :=
  (C9_untouched_tail 0 16 [0, 0, 0, 0, 0, 0, 0, 0, 0, 0, 0, 0, 0, 0, 0, 0]
    (List.replicate 20 7) [0, 0, 0, 0, 0, 0, 0, 0, 0, 0, 0, 0, 0, 0, 0, 0]
    (by decide) (by decide) (by decide) (by decide) (by decide)).1

/-! ### Injectivity helpers for the avalanche property -/

theorem xor_cancel_left2 (a b : Nat) : a ^^^ (a ^^^ b) = b := by
  rw [← Nat.xor_assoc, Nat.xor_self, Nat.zero_xor]

theorem zip_xor_cancel_left : ∀ (a b : List Nat), a.length = b.length →
    (uaes_xor_iv a (uaes_xor_iv a b).1).1 = b := by
  unfold uaes_xor_iv
  intro a
  induction a with
  | nil =>
    intro b h
    cases b with
    | nil => rfl
    | cons y ys => simp at h
  | cons x xs ih =>
    intro b h
    cases b with
    | nil => simp at h
    | cons y ys =>
      simp only [List.zipWith_cons_cons, xor_cancel_left2, List.cons.injEq, true_and]
      exact ih ys (by simpa using h)

theorem zip_xor_inj1 {a a2 b : List Nat} (ha : a.length = b.length)
    (ha2 : a2.length = b.length) (h : (uaes_xor_iv a b).1 = (uaes_xor_iv a2 b).1) :
    a = a2 := by
  have e1 := zip_xor_cancel a b ha
  have e2 := zip_xor_cancel a2 b ha2
  rw [← e1, ← e2, h]

theorem zip_xor_inj2 {a b b2 : List Nat} (hb : a.length = b.length)
    (hb2 : a.length = b2.length) (h : (uaes_xor_iv a b).1 = (uaes_xor_iv a b2).1) :
    b = b2 := by
  have e1 := zip_xor_cancel_left a b hb
  have e2 := zip_xor_cancel_left a b2 hb2
  rw [← e1, ← e2, h]

theorem fwd_inj (ks : List Nat) (Nr : Nat) {x y : List Nat} (hx : x.length = 16)
    (hxb : ∀ u ∈ x, u < 256) (hy : y.length = 16) (hyb : ∀ u ∈ y, u < 256)
    (h : uaes_foward_cipher x ks Nr = uaes_foward_cipher y ks Nr) : x = y := by
  have e1 := cipher_inv ks Nr hx hxb
  have e2 := cipher_inv ks Nr hy hyb
  rw [← e1, ← e2, h]

theorem cbcChain_congr {ks : List Nat} {Nr : Nat} {p p2 iv : List Nat} :
    ∀ j, (∀ k, k ≤ j → getBlock p k = getBlock p2 k) →
      cbcChain ks Nr p iv j = cbcChain ks Nr p2 iv j := by
  intro j
  induction j with
  | zero =>
    intro h
    simp only [cbcChain]
    rw [h 0 (by omega)]
  | succ j ih =>
    intro h
    simp only [cbcChain]
    rw [h (j + 1) (by omega), ih (fun k hk => h k (by omega))]

/-- Claim C8: for every variant, key, IV, and pair of plaintext buffers of
the same multiple-of-16 length at most 64 bytes that differ exactly in block
i, the CBC ciphertexts with the same key and IV agree on every block before
i and differ in block i and in every subsequent block. -/
theorem C8_cbc_avalanche (mode size : Nat) (key p p2 iv : List Nat) (i : Nat)
    (hmode : mode < 3) (hpos : 0 < size) (hle : size ≤ 64)
    (hplen : p.length = 16 * offsetOf size) (hp2len : p2.length = p.length)
    (hp : ∀ x ∈ p, x < 256) (hp2 : ∀ x ∈ p2, x < 256)
    (hiv : iv.length = 16) (hivb : ∀ x ∈ iv, x < 256)
    (hi : i < offsetOf size)
    (hsame : ∀ j, j < offsetOf size → j ≠ i → getBlock p j = getBlock p2 j)
    (hdiff : getBlock p i ≠ getBlock p2 i) :
    ∃ c1out c2out : List Nat,
      (uaes_cbc_encryption (some p) size (some key) (some iv) mode).2.1 = some c1out ∧
      (uaes_cbc_encryption (some p2) size (some key) (some iv) mode).2.1 = some c2out ∧
      (∀ j, j < i → getBlock c1out j = getBlock c2out j) ∧
      ∀ j, i ≤ j → j < offsetOf size → getBlock c1out j ≠ getBlock c2out j := by
  have hcond : 0 < size ∧ size ≤ 64 ∧ mode < 3 := ⟨hpos, hle, hmode⟩
  set ks := key_expansion key (NkOf mode) (4 * (NrOf mode + 1)) with hks
  set Nr := NrOf mode with hNrd
  obtain ⟨m, hm⟩ : ∃ m, offsetOf size = m + 1 := by
    refine ⟨offsetOf size - 1, ?_⟩
    have : 1 ≤ offsetOf size := by
      unfold offsetOf
      split <;> omega
    omega
  have hplen2 : p.length = 16 * (m + 1) := by rw [hplen, hm]
  have hp2len2 : p2.length = 16 * (m + 1) := by rw [hp2len, hplen, hm]
  obtain ⟨hC1len, hC1chain⟩ := cbc_enc_blocks ks Nr p iv m hplen2 hiv
  obtain ⟨hC2len, hC2chain⟩ := cbc_enc_blocks ks Nr p2 iv m hp2len2 hiv
  have hchain_eq : ∀ j, j < i → cbcChain ks Nr p iv j = cbcChain ks Nr p2 iv j := by
    intro j hj
    apply cbcChain_congr
    intro k hk
    exact hsame k (by omega) (by omega)
  have hgplen : ∀ j, j ≤ m → (getBlock p j).length = 16 := by
    intro j hj
    exact getBlock_len (by omega)
  have hgp2len : ∀ j, j ≤ m → (getBlock p2 j).length = 16 := by
    intro j hj
    exact getBlock_len (by omega)
  have hch1len : ∀ j, j ≤ m → (cbcChain ks Nr p iv j).length = 16 := by
    intro j hj
    exact cbcChain_len hiv j (by omega)
  have hch2len : ∀ j, j ≤ m → (cbcChain ks Nr p2 iv j).length = 16 := by
    intro j hj
    exact cbcChain_len hiv j (by omega)
  have hch1lt : ∀ j, j ≤ m → ∀ x ∈ cbcChain ks Nr p iv j, x < 256 := by
    intro j hj
    exact cbcChain_lt hiv hivb hp j (by omega)
  have hch2lt : ∀ j, j ≤ m → ∀ x ∈ cbcChain ks Nr p2 iv j, x < 256 := by
    intro j hj
    exact cbcChain_lt hiv hivb hp2 j (by omega)
  have hchain_ne : ∀ j, i ≤ j → j ≤ m → cbcChain ks Nr p iv j ≠ cbcChain ks Nr p2 iv j := by
    intro j
    induction j with
    | zero =>
      intro hij hjm
      have hi0 : i = 0 := by omega
      intro hcontra
      simp only [cbcChain] at hcontra
      have h2 := fwd_inj ks Nr
        (by rw [zip_xor_len, hgplen 0 (by omega), hiv]; simp)
        (zip_xor_lt _ _ (getBlock_lt 0 hp) hivb)
        (by rw [zip_xor_len, hgp2len 0 (by omega), hiv]; simp)
        (zip_xor_lt _ _ (getBlock_lt 0 hp2) hivb) hcontra
      have h3 := zip_xor_inj1 (by rw [hgplen 0 (by omega), hiv])
        (by rw [hgp2len 0 (by omega), hiv]) h2
      rw [hi0] at hdiff
      exact hdiff h3
    | succ k ih =>
      intro hij hjm
      by_cases hik : i = k + 1
      · intro hcontra
        simp only [cbcChain] at hcontra
        have hck : cbcChain ks Nr p iv k = cbcChain ks Nr p2 iv k :=
          hchain_eq k (by omega)
        rw [hck] at hcontra
        have h2 := fwd_inj ks Nr
          (by rw [zip_xor_len, hgplen (k + 1) (by omega), hch2len k (by omega)]; simp)
          (zip_xor_lt _ _ (getBlock_lt (k + 1) hp) (hch2lt k (by omega)))
          (by rw [zip_xor_len, hgp2len (k + 1) (by omega), hch2len k (by omega)]; simp)
          (zip_xor_lt _ _ (getBlock_lt (k + 1) hp2) (hch2lt k (by omega))) hcontra
        have h3 := zip_xor_inj1
          (by rw [hgplen (k + 1) (by omega), hch2len k (by omega)])
          (by rw [hgp2len (k + 1) (by omega), hch2len k (by omega)]) h2
        rw [hik] at hdiff
        exact hdiff h3
      · intro hcontra
        simp only [cbcChain] at hcontra
        have hpk : getBlock p (k + 1) = getBlock p2 (k + 1) :=
          hsame (k + 1) (by omega) (by omega)
        rw [← hpk] at hcontra
        have h2 := fwd_inj ks Nr
          (by rw [zip_xor_len, hgplen (k + 1) (by omega), hch1len k (by omega)]; simp)
          (zip_xor_lt _ _ (getBlock_lt (k + 1) hp) (hch1lt k (by omega)))
          (by rw [zip_xor_len, hgplen (k + 1) (by omega), hch2len k (by omega)]; simp)
          (zip_xor_lt _ _ (getBlock_lt (k + 1) hp) (hch2lt k (by omega))) hcontra
        have h3 := zip_xor_inj2
          (by rw [hgplen (k + 1) (by omega), hch1len k (by omega)])
          (by rw [hgplen (k + 1) (by omega), hch2len k (by omega)]) h2
        exact ih (by omega) (by omega) h3
  refine ⟨cbcEncLoop ks Nr
      (setBlock (setBlock p 0 (uaes_xor_iv (getBlock p 0) iv).1) 0
        (uaes_foward_cipher
          (getBlock (setBlock p 0 (uaes_xor_iv (getBlock p 0) iv).1) 0) ks Nr)) (m + 1),
    cbcEncLoop ks Nr
      (setBlock (setBlock p2 0 (uaes_xor_iv (getBlock p2 0) iv).1) 0
        (uaes_foward_cipher
          (getBlock (setBlock p2 0 (uaes_xor_iv (getBlock p2 0) iv).1) 0) ks Nr)) (m + 1),
    ?_, ?_, ?_, ?_⟩
  · simp only [uaes_cbc_encryption]
    rw [if_pos hcond, hm]
  · simp only [uaes_cbc_encryption]
    rw [if_pos hcond, hm]
  · intro j hj
    rw [hC1chain j (by omega), hC2chain j (by omega)]
    exact hchain_eq j hj
  · intro j hij hj
    rw [hC1chain j (by omega), hC2chain j (by omega)]
    exact hchain_ne j hij (by omega)

/-- Claim C8 witness: changing block 0 of a two-block all-zero plaintext
changes both CBC ciphertext blocks. -/
theorem C8_cbc_avalanche_witness :
    ∃ c1out c2out : List Nat,
      (uaes_cbc_encryption (some (List.replicate 32 0)) 32
        (some [0, 0, 0, 0, 0, 0, 0, 0, 0, 0, 0, 0, 0, 0, 0, 0])
        (some [0, 0, 0, 0, 0, 0, 0, 0, 0, 0, 0, 0, 0, 0, 0, 0]) 0).2.1 = some c1out ∧
      (uaes_cbc_encryption (some (1 :: List.replicate 31 0)) 32
        (some [0, 0, 0, 0, 0, 0, 0, 0, 0, 0, 0, 0, 0, 0, 0, 0])
        (some [0, 0, 0, 0, 0, 0, 0, 0, 0, 0, 0, 0, 0, 0, 0, 0]) 0).2.1 = some c2out ∧
      (∀ j, j < 0 → getBlock c1out j = getBlock c2out j) ∧
      ∀ j, 0 ≤ j → j < offsetOf 32 → getBlock c1out j ≠ getBlock c2out j :=
  C8_cbc_avalanche 0 32 [0, 0, 0, 0, 0, 0, 0, 0, 0, 0, 0, 0, 0, 0, 0, 0]
    (List.replicate 32 0) (1 :: List.replicate 31 0)
    [0, 0, 0, 0, 0, 0, 0, 0, 0, 0, 0, 0, 0, 0, 0, 0] 0
    (by decide) (by decide) (by decide) (by decide) (by decide) (by decide)
    (by decide) (by decide) (by decide) (by decide) (by decide) (by decide)
